import Mathlib

/-!
Verification development for the Record Canonicalization & Entity-Projection
pipeline (job-posting dataset repository).

The Python sources embedded here:
- `pipeline/step2_processing/2.2_extracting_description_signals.py`
- `pipeline/step2_processing/2.3_normalizing_values.py`
- `pipeline/step2_processing/2.10_splitting_tables_erd.py`

Strings are modelled as Lean `String` / `List Char`.  The Python functions
under study only apply ASCII-relevant transformations to the values our
theorems touch, so `str.lower`, `str.upper`, `str.strip` and the regex
character classes are modelled on their ASCII fragment (Unicode
NFKD-normalization is the identity on ASCII text).  Reference tables
(CSV data files, not part of the source tree) enter as parameters:
association lists scanned in insertion order, mirroring Python dict
iteration order.
-/

set_option maxRecDepth 10000

namespace Pipe

/-- Association-list lookup, first binding wins (Python dict membership). -/
def alookup {α β : Type} [DecidableEq α] (k : α) : List (α × β) → Option β
  | [] => none
  | (k', v) :: rest => if k = k' then some v else alookup k rest

/-- The ASCII letter case pairs (lowercase, uppercase). -/
def asciiPairs : List (Char × Char) :=
  [('a', 'A'), ('b', 'B'), ('c', 'C'), ('d', 'D'), ('e', 'E'), ('f', 'F'),
   ('g', 'G'), ('h', 'H'), ('i', 'I'), ('j', 'J'), ('k', 'K'), ('l', 'L'),
   ('m', 'M'), ('n', 'N'), ('o', 'O'), ('p', 'P'), ('q', 'Q'), ('r', 'R'),
   ('s', 'S'), ('t', 'T'), ('u', 'U'), ('v', 'V'), ('w', 'W'), ('x', 'X'),
   ('y', 'Y'), ('z', 'Z')]

/-- Python `str.upper` on an ASCII character (other characters unchanged). -/
def upperC (c : Char) : Char := (alookup c asciiPairs).getD c

/-- Python `str.lower` on an ASCII character (other characters unchanged). -/
def lowerC (c : Char) : Char :=
  (alookup c (asciiPairs.map (fun p => (p.2, p.1)))).getD c

/-- Python regex `\s` on ASCII: space, tab, newline, carriage return, form feed, vertical tab. -/
def isSp (c : Char) : Bool :=
  c = ' ' ∨ c = '\t' ∨ c = '\n' ∨ c = '\r' ∨ c = '\x0c' ∨ c = '\x0b'

/-- ASCII decimal digit, Python `\d` / `str.isdigit` on ASCII. -/
def isDig (c : Char) : Bool := '0' ≤ c ∧ c ≤ '9'

/-- Python regex `\w` on ASCII: letters, digits, underscore. -/
def isWordC (c : Char) : Bool :=
  ('a' ≤ c ∧ c ≤ 'z') ∨ ('A' ≤ c ∧ c ≤ 'Z') ∨ isDig c ∨ c = '_'

def lowerL (l : List Char) : List Char := l.map lowerC

def upperL (l : List Char) : List Char := l.map upperC

/-- Leading-whitespace removal. -/
def trimL (l : List Char) : List Char := l.dropWhile isSp

/-- Trailing-whitespace removal. -/
def trimR (l : List Char) : List Char := (l.reverse.dropWhile isSp).reverse

/-- Python `str.strip()`. -/
def pyStrip (l : List Char) : List Char := trimR (trimL l)

/-- Python `re.sub(r"\s+", " ", ·)`: every maximal whitespace run becomes one space.
The boolean state records whether the previous character was whitespace. -/
def collapseWs : Bool → List Char → List Char
  | _, [] => []
  | prevWs, c :: rest =>
    if isSp c then
      if prevWs then collapseWs true rest
      else ' ' :: collapseWs true rest
    else c :: collapseWs false rest

/-- Does `pat` occur as a prefix of `l`? -/
def matchAt : List Char → List Char → Bool
  | [], _ => true
  | _ :: _, [] => false
  | p :: ps, c :: cs => p = c ∧ matchAt ps cs

/-- Index (relative to the given offset) of the first occurrence of `pat` in `l`:
Python `str.find`. -/
def findIdx (pat : List Char) : List Char → Nat → Option Nat
  | [], i => if pat = [] then some i else none
  | c :: rest, i =>
    if matchAt pat (c :: rest) then some i else findIdx pat rest (i + 1)

/-- Python `pat in l` substring containment. -/
def occursIn (l pat : List Char) : Bool := (findIdx pat l 0).isSome

/-- Python slice `l[a:b]` (with `a ≤ b` as used by the code). -/
def slice (l : List Char) (a b : Nat) : List Char := (l.drop a).take (b - a)

/-- All chars satisfy a predicate check for nonempty digit runs etc. -/
def allDig (l : List Char) : Bool := l.all isDig

/-- Parse a digit run into a number (the code only calls it on digit runs). -/
def digitsToNat (l : List Char) : Nat :=
  l.foldl (fun acc c => acc * 10 + (c.toNat - '0'.toNat)) 0

/-- Split a char list at every separator character (empties kept); the Python
code always filters out blank pieces afterwards, under which this agrees with
`re.split` on the one-or-more-separators class. -/
def splitBy (p : Char → Bool) : List Char → List (List Char)
  | [] => [[]]
  | c :: rest =>
    match splitBy p rest with
    | [] => [[]]
    | t :: ts => if p c then [] :: t :: ts else (c :: t) :: ts

/-- Python `"sep".join`. -/
def joinSep (sep : List Char) : List (List Char) → List Char
  | [] => []
  | [t] => t
  | t :: rest => t ++ sep ++ joinSep sep rest

/-- String-level wrappers. -/
def strLower (s : String) : String := ⟨lowerL s.data⟩

def strUpper (s : String) : String := ⟨upperL s.data⟩

def strStrip (s : String) : String := ⟨pyStrip s.data⟩

def strContains (s pat : String) : Bool := occursIn s.data pat.data

/-- Minimum of a nonempty list of naturals (Python `min`, with 0 default unused). -/
def listMin : List Nat → Nat
  | [] => 0
  | [n] => n
  | n :: rest => min n (listMin rest)

/-- Maximum of a list of naturals (Python `max`, with 0 default unused). -/
def listMax : List Nat → Nat
  | [] => 0
  | [n] => n
  | n :: rest => max n (listMax rest)

/-! ### Basic lemmas about the string utilities -/

theorem dropWhile_idem (p : Char → Bool) (l : List Char) :
    (l.dropWhile p).dropWhile p = l.dropWhile p := by
  induction l with
  | nil => rfl
  | cons c rest ih =>
    by_cases h : p c
    · simp [List.dropWhile, h, ih]
    · simp [List.dropWhile, h]

theorem trimL_idem (l : List Char) : trimL (trimL l) = trimL l :=
  dropWhile_idem isSp l

theorem trimR_idem (l : List Char) : trimR (trimR l) = trimR l := by
  unfold trimR
  rw [List.reverse_reverse, dropWhile_idem]

/-- `dropWhile` yields a suffix. -/
theorem dropWhile_eq_drop_len (p : Char → Bool) (l : List Char) :
    ∃ n, l.dropWhile p = l.drop n := by
  induction l with
  | nil => exact ⟨0, rfl⟩
  | cons c rest ih =>
    by_cases h : p c
    · obtain ⟨n, hn⟩ := ih
      exact ⟨n + 1, by simpa [List.dropWhile, h] using hn⟩
    · exact ⟨0, by simp [List.dropWhile, h]⟩

/-- `trimR` yields a prefix. -/
theorem trimR_eq_take (l : List Char) : ∃ n, trimR l = l.take n := by
  obtain ⟨n, hn⟩ := dropWhile_eq_drop_len isSp l.reverse
  refine ⟨l.length - n, ?_⟩
  unfold trimR
  rw [hn]
  rw [List.reverse_drop]
  simp

theorem headNotSp_trimL (l : List Char) :
    ∀ c ∈ (trimL l).head?, isSp c = false := by
  induction l with
  | nil => intro c h; simp [trimL] at h
  | cons a rest ih =>
    intro c h
    cases ha : isSp a with
    | true => exact ih c (by simpa [trimL, List.dropWhile_cons, ha] using h)
    | false =>
      simp [trimL, List.dropWhile_cons, ha] at h
      subst h; exact ha

/-! ### Lemmas about strip, case mapping and whitespace collapsing -/

/-- No whitespace at the front. -/
def headNonSp (l : List Char) : Prop := ∀ c ∈ l.head?, isSp c = false

/-- No whitespace at the back. -/
def lastNonSp (l : List Char) : Prop := ∀ c ∈ l.getLast?, isSp c = false

theorem alookup_mem {α β : Type} [DecidableEq α] (k : α) (v : β) (tbl : List (α × β))
    (h : alookup k tbl = some v) : (k, v) ∈ tbl := by
  induction tbl with
  | nil => cases h
  | cons p rest ih =>
    rcases p with ⟨k', v'⟩
    simp only [alookup] at h
    by_cases hk : k = k'
    · rw [if_pos hk] at h
      injection h with h'
      subst hk
      subst h'
      exact List.mem_cons_self _ _
    · rw [if_neg hk] at h
      exact List.mem_cons_of_mem _ (ih h)

theorem asciiPairs_notSp : asciiPairs.all (fun p => !isSp p.1 && !isSp p.2) = true := by
  decide

theorem asciiPairs_upper_fix :
    asciiPairs.all (fun p => (alookup p.2 asciiPairs).isNone) = true := by
  decide

theorem isSp_upperC (c : Char) : isSp (upperC c) = isSp c := by
  unfold upperC
  cases h : alookup c asciiPairs with
  | none => rfl
  | some u =>
    have hm := alookup_mem c u asciiPairs h
    have h2 := List.all_eq_true.mp asciiPairs_notSp (c, u) hm
    simp only [Bool.and_eq_true, Bool.not_eq_true'] at h2
    simp only [Option.getD_some]
    rw [h2.1, h2.2]

theorem upperC_idem (c : Char) : upperC (upperC c) = upperC c := by
  unfold upperC
  cases h : alookup c asciiPairs with
  | none => simp [h]
  | some u =>
    have hm := alookup_mem c u asciiPairs h
    have h2 := List.all_eq_true.mp asciiPairs_upper_fix (c, u) hm
    simp only [Option.isNone_iff_eq_none] at h2
    simp [h2]

theorem head?_take {α : Type} (l : List α) (n : Nat) :
    (l.take n).head? = if n = 0 then none else l.head? := by
  cases n <;> cases l <;> simp

theorem trimL_eq_self (l : List Char) (h : headNonSp l) : trimL l = l := by
  cases l with
  | nil => rfl
  | cons c rest =>
    have hc : isSp c = false := h c (by simp)
    simp [trimL, List.dropWhile_cons, hc]

theorem trimR_eq_self (l : List Char) (h : lastNonSp l) : trimR l = l := by
  unfold trimR
  have hh : headNonSp l.reverse := by
    intro c hc
    rw [List.head?_reverse] at hc
    exact h c hc
  have := trimL_eq_self l.reverse hh
  unfold trimL at this
  rw [this, List.reverse_reverse]

theorem pyStrip_eq_self (l : List Char) (h1 : headNonSp l) (h2 : lastNonSp l) :
    pyStrip l = l := by
  unfold pyStrip
  rw [trimL_eq_self l h1, trimR_eq_self l h2]

theorem headNonSp_pyStrip (l : List Char) : headNonSp (pyStrip l) := by
  intro c hc
  unfold pyStrip at hc
  obtain ⟨n, hn⟩ := trimR_eq_take (trimL l)
  rw [hn, head?_take] at hc
  by_cases h0 : n = 0
  · rw [if_pos h0] at hc; cases hc
  · rw [if_neg h0] at hc
    exact headNotSp_trimL l c hc

theorem lastNonSp_pyStrip (l : List Char) : lastNonSp (pyStrip l) := by
  intro c hc
  unfold pyStrip trimR at hc
  rw [List.getLast?_reverse] at hc
  exact headNotSp_trimL _ c (by simpa [trimL] using hc)

theorem pyStrip_idem (l : List Char) : pyStrip (pyStrip l) = pyStrip l :=
  pyStrip_eq_self _ (headNonSp_pyStrip l) (lastNonSp_pyStrip l)

theorem headNonSp_upperL (l : List Char) (h : headNonSp l) : headNonSp (upperL l) := by
  intro c hc
  unfold upperL at hc
  rw [List.head?_map] at hc
  cases hl : l.head? with
  | none => rw [hl] at hc; cases hc
  | some a =>
    rw [hl] at hc
    have hca : upperC a = c := by simpa using hc
    subst hca
    rw [isSp_upperC]
    exact h a (by rw [hl]; rfl)

theorem lastNonSp_upperL (l : List Char) (h : lastNonSp l) : lastNonSp (upperL l) := by
  intro c hc
  unfold upperL at hc
  rw [List.getLast?_map] at hc
  cases hl : l.getLast? with
  | none => rw [hl] at hc; cases hc
  | some a =>
    rw [hl] at hc
    have hca : upperC a = c := by simpa using hc
    subst hca
    rw [isSp_upperC]
    exact h a (by rw [hl]; rfl)

theorem pyStrip_upperL_pyStrip (l : List Char) :
    pyStrip (upperL (pyStrip l)) = upperL (pyStrip l) :=
  pyStrip_eq_self _ (headNonSp_upperL _ (headNonSp_pyStrip l))
    (lastNonSp_upperL _ (lastNonSp_pyStrip l))

theorem upperL_idem (l : List Char) : upperL (upperL l) = upperL l := by
  induction l with
  | nil => rfl
  | cons c rest ih =>
    simp only [upperL, List.map_cons] at ih ⊢
    rw [upperC_idem]
    rw [ih]

/-- Well-formedness of a whitespace-collapsed string, with the same state
flag as `collapseWs`: every whitespace character is a single `' '` followed
by a non-whitespace character, and when the flag says a space was just
emitted the next character must exist and not be whitespace. -/
def okFrom : Bool → List Char → Bool
  | b, [] => !b
  | b, c :: rest =>
    if isSp c then
      if b then false else (c = ' ') && okFrom true rest
    else okFrom false rest

theorem collapse_of_ok (l : List Char) :
    ∀ b : Bool, okFrom b l = true → collapseWs b l = l := by
  induction l with
  | nil => intro b _; rfl
  | cons c rest ih =>
    intro b h
    cases hc : isSp c with
    | true =>
      rw [okFrom, if_pos hc] at h
      cases b with
      | true => cases h
      | false =>
        simp only [Bool.false_eq_true, if_false, Bool.and_eq_true, decide_eq_true_eq] at h
        rw [collapseWs, if_pos hc]
        simp only [Bool.false_eq_true, if_false]
        rw [h.1, ih true h.2]
    | false =>
      rw [okFrom, if_neg (by simp [hc])] at h
      rw [collapseWs, if_neg (by simp [hc])]
      rw [ih false h]

theorem ok_of_collapse (l : List Char) :
    lastNonSp l →
    okFrom false (collapseWs false l) = true
    ∧ (l ≠ [] → okFrom true (collapseWs true l) = true) := by
  induction l with
  | nil =>
    intro _
    exact ⟨rfl, fun h => absurd rfl h⟩
  | cons c rest ih =>
    intro hlast
    cases rest with
    | nil =>
      have hc : isSp c = false := hlast c (by simp)
      constructor
      · rw [collapseWs, if_neg (by simp [hc]), okFrom, if_neg (by simp [hc])]
        rfl
      · intro _
        rw [collapseWs, if_neg (by simp [hc]), okFrom, if_neg (by simp [hc])]
        rfl
    | cons r rs =>
      have hrest : lastNonSp (r :: rs) := by
        intro d hd
        exact hlast d (by rwa [List.getLast?_cons_cons])
      have ihr := ih hrest
      constructor
      · cases hc : isSp c with
        | true =>
          rw [collapseWs, if_pos hc]
          simp only [Bool.false_eq_true, if_false]
          rw [okFrom, if_pos (by decide)]
          simp only [Bool.false_eq_true, if_false, Bool.and_eq_true, decide_eq_true_eq]
          exact ⟨trivial, ihr.2 (by simp)⟩
        | false =>
          rw [collapseWs, if_neg (by simp [hc]), okFrom, if_neg (by simp [hc])]
          exact ihr.1
      · intro _
        cases hc : isSp c with
        | true =>
          rw [collapseWs, if_pos hc]
          simp only [if_true]
          exact ihr.2 (by simp)
        | false =>
          rw [collapseWs, if_neg (by simp [hc]), okFrom, if_neg (by simp [hc])]
          exact ihr.1

theorem ok_last (l : List Char) :
    ∀ b : Bool, okFrom b l = true → lastNonSp l := by
  induction l with
  | nil => intro b _ c hc; cases hc
  | cons c rest ih =>
    intro b h
    cases rest with
    | nil =>
      intro d hd
      have hdc : c = d := by simpa using hd
      subst hdc
      cases hc : isSp c with
      | true =>
        rw [okFrom, if_pos hc] at h
        cases b with
        | true => cases h
        | false =>
          simp only [Bool.false_eq_true, if_false, Bool.and_eq_true] at h
          rw [show okFrom true ([] : List Char) = false from rfl] at h
          cases h.2
      | false => rfl
    | cons r rs =>
      intro d hd
      rw [List.getLast?_cons_cons] at hd
      cases hc : isSp c with
      | true =>
        rw [okFrom, if_pos hc] at h
        cases b with
        | true => cases h
        | false =>
          simp only [Bool.false_eq_true, if_false, Bool.and_eq_true] at h
          exact ih true h.2 d hd
      | false =>
        rw [okFrom, if_neg (by simp [hc])] at h
        exact ih false h d hd

theorem headNonSp_collapse (l : List Char) (h : headNonSp l) :
    headNonSp (collapseWs false l) := by
  cases l with
  | nil => intro c hc; cases hc
  | cons c rest =>
    have hc : isSp c = false := h c (by simp)
    rw [collapseWs, if_neg (by simp [hc])]
    intro d hd
    simp only [List.head?_cons, Option.mem_def, Option.some.injEq] at hd
    subst hd
    exact hc

/-!
### Entity Projector — `2.10_splitting_tables_erd.py`

A combined-data row is modelled with `Option String` fields — `none` is a
pandas missing value (`NaN`); `load_combined` reads without `dtype=str`, but
every operation the projector applies to a cell (`pd.isna`, `str(v).strip()`,
set membership against string enums, `split("|")`) factors through the
string rendering, so `Option String` carries exactly the information used.
`SKILL_TO_CATEGORY` (from `skill_mapping.csv`, a data file) is a parameter.
-/

/-- The closed enums of the ERD, verbatim from the source. -/
def COMPANY_SIZES : List String := ["Startup", "Small", "Medium", "Large", "Enterprise"]

def INDUSTRIES : List String :=
  ["Technology", "Finance", "Banking", "Insurance", "Healthcare", "Education",
   "E-commerce", "Manufacturing", "Consulting", "Government",
   "Telecommunications", "Energy", "Retail", "Logistics", "Real Estate"]

def ROLE_ENUM : List String :=
  ["Data Analyst", "Business Intelligence Analyst", "BI Developer",
   "Analytics Engineer", "Data Engineer", "Data Scientist",
   "Machine Learning Engineer", "AI Engineer", "AI Researcher",
   "Applied Scientist", "Research Engineer", "Data Architect",
   "Data Manager", "Data Lead"]

def EDUCATION_LEVELS : List String := ["High School", "Bachelor", "Master", "PhD"]

def EMPLOYMENT_TYPES : List String := ["Full-time", "Part-time", "Internship", "Temporary"]

def JOB_LEVELS : List String := ["Intern", "Junior", "Mid", "Senior", "Lead"]

def REMOTE_OPTIONS : List String := ["Onsite", "Hybrid", "Remote"]

/-- The string members of `NA_SET` (the member `None` of the Python set is the
`none` case of the option). -/
def NA_SET_STR : List String := ["__NA__", "__INVALID__", "__UNMATCHED__", ""]

/-- `pd.isna(v) or str(v).strip() in NA_SET`. -/
def naLike : Option String → Bool
  | none => true
  | some s => NA_SET_STR.contains (strStrip s)

/-- `to_null` from the source. -/
def to_null (v : Option String) : Option String :=
  if naLike v then none else v

/-- `x if x in enum else None`: Python set membership of a possibly-missing
value against a set of strings. -/
def enumOr (v : Option String) (es : List String) : Option String :=
  match v with
  | none => none
  | some s => if es.contains s then some s else none

/-- One combined-data row (canonical ERD column set). -/
structure PRec where
  company_name : Option String
  company_size : Option String
  industry : Option String
  city : Option String
  country : Option String
  country_iso : Option String
  latitude : Option String
  longitude : Option String
  population : Option String
  posted_date : Option String
  min_salary : Option String
  max_salary : Option String
  currency : Option String
  required_exp_years : Option String
  education_level : Option String
  employment_type : Option String
  job_description : Option String
  remote_option : Option String
  skill_name : Option String
  role_name : Option String
  level : Option String
  deriving DecidableEq, Repr

/-- `r.values`: the row's cells. -/
def values (r : PRec) : List (Option String) :=
  [r.company_name, r.company_size, r.industry, r.city, r.country, r.country_iso,
   r.latitude, r.longitude, r.population, r.posted_date, r.min_salary,
   r.max_salary, r.currency, r.required_exp_years, r.education_level,
   r.employment_type, r.job_description, r.remote_option, r.skill_name,
   r.role_name, r.level]

/-- Natural-key → surrogate-id dictionary plus the next-id counter
(the `*_map` dict and `*_id` counter pair of the source). -/
structure Assign (κ : Type) where
  tbl : List (κ × Nat)
  next : Nat
  deriving Repr

/-- Process one natural key: first sight inserts with the next id, otherwise
the existing binding is reused (`if k not in map: map[k] = id; id += 1`). -/
def assignStep {κ : Type} [DecidableEq κ] (a : Assign κ) (k : κ) : Assign κ :=
  match alookup k a.tbl with
  | some _ => a
  | none => ⟨a.tbl ++ [(k, a.next)], a.next + 1⟩

/-- Same, also returning the id used for this occurrence. -/
def assignId {κ : Type} [DecidableEq κ] (a : Assign κ) (k : κ) : Nat × Assign κ :=
  match alookup k a.tbl with
  | some i => (i, a)
  | none => (a.next, ⟨a.tbl ++ [(k, a.next)], a.next + 1⟩)

structure CompanyRow where
  company_id : Nat
  company_name : Option String
  size : Option String
  industry : Option String
  deriving DecidableEq, Repr

structure LocationRow where
  location_id : Nat
  city : Option String
  country : Option String
  country_iso : Option String
  latitude : Option String
  longitude : Option String
  population : Option String
  deriving DecidableEq, Repr

structure SkillRow where
  skill_id : Nat
  skill_name : String
  skill_category : String
  deriving DecidableEq, Repr

structure RoleRow where
  role_id : Nat
  role_name : String
  deriving DecidableEq, Repr

structure JobRow where
  job_id : Nat
  company_id : Nat
  location_id : Nat
  posted_date : Option String
  min_salary : Option String
  max_salary : Option String
  currency : Option String
  required_exp_years : Option String
  education_level : Option String
  employment_type : Option String
  job_description : Option String
  remote_option : Option String
  deriving DecidableEq, Repr

structure JobSkillRow where
  job_id : Nat
  skill_id : Nat
  deriving DecidableEq, Repr

structure JobRoleRow where
  job_id : Nat
  role_id : Nat
  deriving DecidableEq, Repr

structure JobLevelRow where
  job_id : Nat
  level : String
  deriving DecidableEq, Repr

/-- The whole mutable state of `run()`'s loop. -/
structure ProjState where
  company : Assign (Option String)
  location : Assign (Option String × Option String × Option String)
  role : Assign String
  skill : Assign String
  companies : List CompanyRow
  locations : List LocationRow
  roles : List RoleRow
  skills : List SkillRow
  job_postings : List JobRow
  job_skills : List JobSkillRow
  job_roles : List JobRoleRow
  job_levels : List JobLevelRow
  job_id : Nat
  dropped_no_company : Nat
  dropped_all_na : Nat
  deriving Repr

def initState : ProjState :=
  ⟨⟨[], 1⟩, ⟨[], 1⟩, ⟨[], 1⟩, ⟨[], 1⟩, [], [], [], [], [], [], [], [], 1, 0, 0⟩

/-- Python `str.split("|")` (single-character separator, empties kept). -/
def splitPipe (s : String) : List String :=
  (splitBy (· = '|') s.data).map (fun l => ⟨l⟩)

/-- The skill tokens of a row that reach the id-assignment loop: present
field, not the NA sentinel, split on `|`, stripped, blank and sentinel
tokens removed, and only tokens known to the category map survive. -/
def skillTokens (cat : String → Option String) (r : PRec) : List String :=
  match r.skill_name with
  | none => []
  | some s =>
    if strStrip s = "__NA__" then []
    else (((splitPipe s).map strStrip).filter
            (fun t => t ≠ "" ∧ t ≠ "__NA__")).filter (fun t => (cat t).isSome)

/-- The role tokens of a row that reach the id-assignment loop. -/
def roleTokens (r : PRec) : List String :=
  match r.role_name with
  | none => []
  | some s => ((splitPipe s).map strStrip).filter (fun t => ROLE_ENUM.contains t)

/-- Per-token body of the skills loop. -/
def skillStep (cat : String → Option String) (jid : Nat)
    (acc : Assign String × List SkillRow × List JobSkillRow) (tok : String) :
    Assign String × List SkillRow × List JobSkillRow :=
  let (sid, a') := assignId acc.1 tok
  let rows := match alookup tok acc.1.tbl with
    | some _ => acc.2.1
    | none => acc.2.1 ++ [⟨acc.1.next, tok, (cat tok).getD ""⟩]
  (a', rows, acc.2.2 ++ [⟨jid, sid⟩])

/-- Per-token body of the roles loop. -/
def roleStep (jid : Nat)
    (acc : Assign String × List RoleRow × List JobRoleRow) (tok : String) :
    Assign String × List RoleRow × List JobRoleRow :=
  let (rid, a') := assignId acc.1 tok
  let rows := match alookup tok acc.1.tbl with
    | some _ => acc.2.1
    | none => acc.2.1 ++ [⟨acc.1.next, tok⟩]
  (a', rows, acc.2.2 ++ [⟨jid, rid⟩])

/-- The JobPosting row emitted for a kept record. -/
def jobRowOf (st : ProjState) (r : PRec) : JobRow :=
  ⟨st.job_id, (assignId st.company r.company_name).1,
   (assignId st.location (r.city, r.country, r.country_iso)).1,
   to_null r.posted_date, to_null r.min_salary,
   to_null r.max_salary, to_null r.currency, to_null r.required_exp_years,
   enumOr r.education_level EDUCATION_LEVELS,
   enumOr r.employment_type EMPLOYMENT_TYPES,
   r.job_description,
   enumOr r.remote_option REMOTE_OPTIONS⟩

/-- The entity/junction part of the loop body, once both drop checks passed. -/
def keptBody (cat : String → Option String) (st : ProjState) (r : PRec) : ProjState :=
  let companies' := match alookup r.company_name st.company.tbl with
      | some _ => st.companies
      | none => st.companies ++
          [⟨st.company.next, r.company_name,
            enumOr r.company_size COMPANY_SIZES, enumOr r.industry INDUSTRIES⟩]
    let lkey := (r.city, r.country, r.country_iso)
    let locations' := match alookup lkey st.location.tbl with
      | some _ => st.locations
      | none => st.locations ++
          [⟨st.location.next, to_null r.city, to_null r.country, to_null r.country_iso,
            r.latitude, r.longitude, r.population⟩]
    let skillRes :=
      (skillTokens cat r).foldl (skillStep cat st.job_id) (st.skill, st.skills, st.job_skills)
    let roleRes :=
      (roleTokens r).foldl (roleStep st.job_id) (st.role, st.roles, st.job_roles)
    let job_levels' := match r.level with
      | some lv => if JOB_LEVELS.contains lv then st.job_levels ++ [⟨st.job_id, lv⟩] else st.job_levels
      | none => st.job_levels
    { company := (assignId st.company r.company_name).2,
      location := (assignId st.location lkey).2,
      role := roleRes.1, skill := skillRes.1,
      companies := companies', locations := locations',
      roles := roleRes.2.1, skills := skillRes.2.1,
      job_postings := st.job_postings ++ [jobRowOf st r],
      job_skills := skillRes.2.2, job_roles := roleRes.2.2, job_levels := job_levels',
      job_id := st.job_id + 1,
      dropped_no_company := st.dropped_no_company,
      dropped_all_na := st.dropped_all_na }

/-- The loop body of `run()` for one combined-data row: the two drop checks
in source order, then the entity/junction projection. -/
def processRec (cat : String → Option String) (st : ProjState) (r : PRec) : ProjState :=
  if naLike r.company_name then
    { st with dropped_no_company := st.dropped_no_company + 1 }
  else if ((values r).filter (fun v => !naLike v)).isEmpty then
    { st with dropped_all_na := st.dropped_all_na + 1 }
  else
    keptBody cat st r

/-- `run()`: single forward pass over the combined rows. -/
def runProject (cat : String → Option String) (recs : List PRec) : ProjState :=
  recs.foldl (processRec cat) initState

/-- A record survives the two drop checks (is projected to a JobPosting)
exactly when this holds — see `kept_iff_companyOk`. -/
def companyOk (r : PRec) : Bool := !naLike r.company_name

/-! ### Generic facts about natural-key → surrogate-id assignment -/

/-- Boolean membership. -/
def memB {κ : Type} [DecidableEq κ] (k : κ) : List κ → Bool
  | [] => false
  | a :: rest => if a = k then true else memB k rest

/-- The keys of `ks` not in `seen`, in first-occurrence order. -/
def newKeys {κ : Type} [DecidableEq κ] (seen : List κ) : List κ → List κ
  | [] => []
  | k :: ks => if memB k seen then newKeys seen ks else k :: newKeys (k :: seen) ks

/-- The distinct keys of a key stream, in first-occurrence order. -/
def firstOccur {κ : Type} [DecidableEq κ] : List κ → List κ := newKeys []

/-- Pair a key list with consecutive ids starting at `n`. -/
def zipFrom {κ : Type} (n : Nat) : List κ → List (κ × Nat)
  | [] => []
  | k :: ks => (k, n) :: zipFrom (n + 1) ks

/-- Index of the first occurrence of `k` (total; callers establish membership). -/
def posOf {κ : Type} [DecidableEq κ] (k : κ) : List κ → Nat
  | [] => 0
  | a :: rest => if a = k then 0 else posOf k rest + 1

theorem alookup_none_iff_memB {κ β : Type} [DecidableEq κ] (k : κ) (tbl : List (κ × β)) :
    alookup k tbl = none ↔ memB k (tbl.map Prod.fst) = false := by
  induction tbl with
  | nil => simp [alookup, memB]
  | cons p rest ih =>
    by_cases h : k = p.1
    · simp [alookup, memB, h]
    · simp only [alookup, List.map_cons, memB]
      rw [if_neg h, if_neg (fun hh => h hh.symm)]
      exact ih

theorem newKeys_congr {κ : Type} [DecidableEq κ] (ks : List κ) :
    ∀ s1 s2 : List κ, (∀ x, memB x s1 = memB x s2) → newKeys s1 ks = newKeys s2 ks := by
  induction ks with
  | nil => intro s1 s2 _; rfl
  | cons k ks ih =>
    intro s1 s2 h
    simp only [newKeys, h k]
    cases hm : memB k s2 with
    | true => exact ih s1 s2 h
    | false =>
      have hcons : ∀ x, memB x (k :: s1) = memB x (k :: s2) := by
        intro x
        simp only [memB]
        cases hkx : decide (k = x) with
        | true => simp [of_decide_eq_true hkx]
        | false => simp [of_decide_eq_false hkx, h x]
      rw [ih (k :: s1) (k :: s2) hcons]
      simp

theorem memB_append {κ : Type} [DecidableEq κ] (k : κ) (l1 l2 : List κ) :
    memB k (l1 ++ l2) = (memB k l1 || memB k l2) := by
  induction l1 with
  | nil => simp [memB]
  | cons a rest ih =>
    by_cases h : a = k
    · simp [memB, h]
    · simp [memB, h, ih]

/-- The id-assignment fold, characterized: the table grows by the unseen keys
in first-occurrence order with consecutive ids from the running counter. -/
theorem foldl_assignStep_eq {κ : Type} [DecidableEq κ] (ks : List κ) :
    ∀ a : Assign κ, ks.foldl assignStep a =
      ⟨a.tbl ++ zipFrom a.next (newKeys (a.tbl.map Prod.fst) ks),
       a.next + (newKeys (a.tbl.map Prod.fst) ks).length⟩ := by
  induction ks with
  | nil => intro a; simp [newKeys, zipFrom]
  | cons k ks ih =>
    intro a
    cases hl : alookup k a.tbl with
    | some i =>
      have hm : memB k (a.tbl.map Prod.fst) = true := by
        cases hmm : memB k (a.tbl.map Prod.fst) with
        | true => rfl
        | false => rw [(alookup_none_iff_memB k a.tbl).mpr hmm] at hl; cases hl
      simp only [List.foldl_cons, assignStep, hl, newKeys, hm, if_true]
      exact ih a
    | none =>
      have hm : memB k (a.tbl.map Prod.fst) = false :=
        (alookup_none_iff_memB k a.tbl).mp hl
      simp only [List.foldl_cons, assignStep, hl, newKeys, hm]
      rw [ih ⟨a.tbl ++ [(k, a.next)], a.next + 1⟩]
      have hseen : newKeys ((a.tbl ++ [(k, a.next)]).map Prod.fst) ks
          = newKeys (k :: a.tbl.map Prod.fst) ks := by
        apply newKeys_congr
        intro x
        rw [List.map_append, memB_append]
        simp only [List.map_cons, List.map_nil, memB]
        cases hkx : decide (k = x) with
        | true => simp [of_decide_eq_true hkx]
        | false => simp [of_decide_eq_false hkx]
      rw [hseen]
      simp only [Bool.false_eq_true, if_false, Assign.mk.injEq]
      constructor
      · rw [List.append_assoc]
        simp [zipFrom]
      · simp [List.length_cons]
        omega

theorem alookup_zipFrom {κ : Type} [DecidableEq κ] (k : κ) (ds : List κ) :
    ∀ n : Nat, memB k ds = true → alookup k (zipFrom n ds) = some (n + posOf k ds) := by
  induction ds with
  | nil => intro n h; cases h
  | cons a rest ih =>
    intro n h
    by_cases hk : a = k
    · simp [zipFrom, alookup, posOf, hk]
    · have hk' : ¬ k = a := fun hh => hk hh.symm
      have hmem : memB k rest = true := by simpa [memB, hk] using h
      simp only [zipFrom, alookup, if_neg hk', posOf, if_neg hk]
      rw [ih (n + 1) hmem]
      congr 1
      omega

theorem memB_newKeys {κ : Type} [DecidableEq κ] (k : κ) (ks : List κ) :
    ∀ seen : List κ, memB k ks = true → memB k seen = false →
      memB k (newKeys seen ks) = true := by
  induction ks with
  | nil => intro seen h _; cases h
  | cons a rest ih =>
    intro seen h hseen
    by_cases hk : a = k
    · subst hk
      simp [newKeys, hseen, memB]
    · have hmem : memB k rest = true := by simpa [memB, hk] using h
      simp only [newKeys]
      cases hm : memB a seen with
      | true => exact ih seen hmem hseen
      | false =>
        simp only [memB, if_neg hk]
        exact ih (a :: seen) hmem (by simpa [memB, hk] using hseen)

/-! ### Structural lemmas about the projector loop body -/

theorem companyOk_filter_ne (r : PRec) (h : companyOk r = true) :
    ((values r).filter (fun v => !naLike v)).isEmpty = false := by
  have hna : naLike r.company_name = false := by simpa [companyOk] using h
  simp [values, List.filter_cons, hna]

theorem processRec_dropped (cat : String → Option String) (st : ProjState) (r : PRec)
    (h : companyOk r = false) :
    processRec cat st r = { st with dropped_no_company := st.dropped_no_company + 1 } := by
  have hna : naLike r.company_name = true := by simpa [companyOk] using h
  simp [processRec, hna]

theorem processRec_kept (cat : String → Option String) (st : ProjState) (r : PRec)
    (h : companyOk r = true) :
    processRec cat st r = keptBody cat st r := by
  have hna : naLike r.company_name = false := by simpa [companyOk] using h
  simp [processRec, hna, companyOk_filter_ne r h]

theorem assignId_snd {κ : Type} [DecidableEq κ] (a : Assign κ) (k : κ) :
    (assignId a k).2 = assignStep a k := by
  unfold assignId assignStep
  cases alookup k a.tbl <;> rfl

theorem skillFold_fst (cat : String → Option String) (jid : Nat) (toks : List String) :
    ∀ (a : Assign String) (rows : List SkillRow) (js : List JobSkillRow),
      (toks.foldl (skillStep cat jid) (a, rows, js)).1 = toks.foldl assignStep a := by
  induction toks with
  | nil => intro a rows js; rfl
  | cons t ts ih =>
    intro a rows js
    simp only [List.foldl_cons, skillStep]
    rw [ih]
    rw [assignId_snd]

theorem roleFold_fst (jid : Nat) (toks : List String) :
    ∀ (a : Assign String) (rows : List RoleRow) (js : List JobRoleRow),
      (toks.foldl (roleStep jid) (a, rows, js)).1 = toks.foldl assignStep a := by
  induction toks with
  | nil => intro a rows js; rfl
  | cons t ts ih =>
    intro a rows js
    simp only [List.foldl_cons, roleStep]
    rw [ih]
    rw [assignId_snd]

theorem keptBody_company (cat : String → Option String) (st : ProjState) (r : PRec) :
    (keptBody cat st r).company = assignStep st.company r.company_name := by
  simp only [keptBody]
  rw [assignId_snd]

/-- Location natural key. -/
def locKey (r : PRec) : Option String × Option String × Option String :=
  (r.city, r.country, r.country_iso)

theorem keptBody_location (cat : String → Option String) (st : ProjState) (r : PRec) :
    (keptBody cat st r).location = assignStep st.location (locKey r) := by
  simp only [keptBody, locKey]
  rw [assignId_snd]

theorem keptBody_skill (cat : String → Option String) (st : ProjState) (r : PRec) :
    (keptBody cat st r).skill = (skillTokens cat r).foldl assignStep st.skill := by
  simp only [keptBody]
  rw [skillFold_fst]

theorem keptBody_role (cat : String → Option String) (st : ProjState) (r : PRec) :
    (keptBody cat st r).role = (roleTokens r).foldl assignStep st.role := by
  simp only [keptBody]
  rw [roleFold_fst]

theorem keptBody_jobs (cat : String → Option String) (st : ProjState) (r : PRec) :
    (keptBody cat st r).job_postings = st.job_postings ++ [jobRowOf st r] := rfl

theorem keptBody_counters (cat : String → Option String) (st : ProjState) (r : PRec) :
    (keptBody cat st r).dropped_no_company = st.dropped_no_company
    ∧ (keptBody cat st r).dropped_all_na = st.dropped_all_na :=
  ⟨rfl, rfl⟩

/-- First occurrence determines the position in the deduplicated key list:
the index of `k` is the number of distinct keys occurring strictly before
`k`'s first occurrence. -/
theorem posOf_newKeys {κ : Type} [DecidableEq κ] (k : κ) (ks : List κ) :
    ∀ seen : List κ, memB k seen = false → memB k ks = true →
      posOf k (newKeys seen ks) =
        (newKeys seen (ks.takeWhile (fun a => a ≠ k))).length := by
  induction ks with
  | nil => intro seen _ h; cases h
  | cons a rest ih =>
    intro seen hseen h
    by_cases hk : a = k
    · subst hk
      simp only [newKeys, hseen, Bool.false_eq_true, if_false, posOf, if_pos rfl,
        List.takeWhile_cons, decide_not, decide_eq_true_eq]
      simp [newKeys]
    · have hmem : memB k rest = true := by simpa [memB, hk] using h
      have htw : (a :: rest).takeWhile (fun x => decide (x ≠ k))
          = a :: rest.takeWhile (fun x => decide (x ≠ k)) := by
        simp [List.takeWhile_cons, hk]
      rw [htw]
      simp only [newKeys]
      cases hm : memB a seen with
      | true => exact ih seen hseen hmem
      | false =>
        simp only [posOf, if_neg hk, List.length_cons, Bool.false_eq_true, if_false]
        rw [ih (a :: seen) (by simpa [memB, hk] using hseen) hmem]

/-! ### Key streams of a run -/

def companyKeySeq (recs : List PRec) : List (Option String) :=
  (recs.filter companyOk).map PRec.company_name

def locKeySeq (recs : List PRec) : List (Option String × Option String × Option String) :=
  (recs.filter companyOk).map locKey

def roleKeySeq (recs : List PRec) : List String :=
  (recs.filter companyOk).flatMap roleTokens

def skillKeySeq (cat : String → Option String) (recs : List PRec) : List String :=
  (recs.filter companyOk).flatMap (skillTokens cat)

/-- The id maps evolve exactly as the assignment fold over the corresponding
natural-key streams of the kept records. -/
theorem proj_maps_eq (cat : String → Option String) (recs : List PRec) :
    ∀ st : ProjState,
      (recs.foldl (processRec cat) st).company = (companyKeySeq recs).foldl assignStep st.company
      ∧ (recs.foldl (processRec cat) st).location = (locKeySeq recs).foldl assignStep st.location
      ∧ (recs.foldl (processRec cat) st).role = (roleKeySeq recs).foldl assignStep st.role
      ∧ (recs.foldl (processRec cat) st).skill = (skillKeySeq cat recs).foldl assignStep st.skill := by
  induction recs with
  | nil =>
    intro st
    simp [companyKeySeq, locKeySeq, roleKeySeq, skillKeySeq]
  | cons r recs ih =>
    intro st
    cases hok : companyOk r with
    | false =>
      have hseq : ∀ {α : Type} (f : PRec → α),
          ((r :: recs).filter companyOk).map f = (recs.filter companyOk).map f := by
        intro α f
        simp [List.filter_cons, hok]
      have hbind : ∀ (f : PRec → List String),
          ((r :: recs).filter companyOk).flatMap f = (recs.filter companyOk).flatMap f := by
        intro f
        simp [List.filter_cons, hok]
      simp only [List.foldl_cons, processRec_dropped cat st r hok]
      refine ⟨?_, ?_, ?_, ?_⟩
      · rw [show companyKeySeq (r :: recs) = companyKeySeq recs from hseq _]
        exact (ih _).1
      · rw [show locKeySeq (r :: recs) = locKeySeq recs from hseq _]
        exact (ih _).2.1
      · rw [show roleKeySeq (r :: recs) = roleKeySeq recs from hbind _]
        exact (ih _).2.2.1
      · rw [show skillKeySeq cat (r :: recs) = skillKeySeq cat recs from hbind _]
        exact (ih _).2.2.2
    | true =>
      have hc : companyKeySeq (r :: recs) = r.company_name :: companyKeySeq recs := by
        simp [companyKeySeq, List.filter_cons, hok]
      have hl : locKeySeq (r :: recs) = locKey r :: locKeySeq recs := by
        simp [locKeySeq, List.filter_cons, hok]
      have hr : roleKeySeq (r :: recs) = roleTokens r ++ roleKeySeq recs := by
        simp [roleKeySeq, List.filter_cons, hok]
      have hs : skillKeySeq cat (r :: recs) = skillTokens cat r ++ skillKeySeq cat recs := by
        simp [skillKeySeq, List.filter_cons, hok]
      simp only [List.foldl_cons, processRec_kept cat st r hok]
      refine ⟨?_, ?_, ?_, ?_⟩
      · rw [hc]
        simp only [List.foldl_cons]
        rw [← keptBody_company cat st r]
        exact (ih _).1
      · rw [hl]
        simp only [List.foldl_cons]
        rw [← keptBody_location cat st r]
        exact (ih _).2.1
      · rw [hr, List.foldl_append]
        rw [← keptBody_role cat st r]
        exact (ih _).2.2.1
      · rw [hs, List.foldl_append]
        rw [← keptBody_skill cat st r]
        exact (ih _).2.2.2

/-- Emission and drop counting per record. -/
theorem proj_counts (cat : String → Option String) (recs : List PRec) :
    ∀ st : ProjState,
      (recs.foldl (processRec cat) st).job_postings.length
        = st.job_postings.length + (recs.filter companyOk).length
      ∧ (recs.foldl (processRec cat) st).dropped_no_company
        = st.dropped_no_company + (recs.filter (fun r => !companyOk r)).length
      ∧ (recs.foldl (processRec cat) st).dropped_all_na = st.dropped_all_na := by
  induction recs with
  | nil => intro st; simp
  | cons r recs ih =>
    intro st
    cases hok : companyOk r with
    | false =>
      simp only [List.foldl_cons, processRec_dropped cat st r hok, List.filter_cons, hok]
      refine ⟨?_, ?_, ?_⟩
      · simpa using (ih _).1
      · have := (ih { st with dropped_no_company := st.dropped_no_company + 1 }).2.1
        simp only [this]
        simp
        omega
      · exact (ih _).2.2
    | true =>
      simp only [List.foldl_cons, processRec_kept cat st r hok, List.filter_cons, hok]
      refine ⟨?_, ?_, ?_⟩
      · have := (ih (keptBody cat st r)).1
        simp only [this, keptBody_jobs]
        simp
        omega
      · have := (ih (keptBody cat st r)).2.1
        simp only [this, (keptBody_counters cat st r).1]
        simp
      · have := (ih (keptBody cat st r)).2.2
        simp only [this, (keptBody_counters cat st r).2]

/-- Per-record emission: exactly one JobPosting row appears iff the company
check passes, regardless of every other field. -/
theorem emit_count (cat : String → Option String) (st : ProjState) (r : PRec) :
    (processRec cat st r).job_postings.length
      = st.job_postings.length + (if companyOk r then 1 else 0) := by
  cases hok : companyOk r with
  | false => simp [processRec_dropped cat st r hok]
  | true => simp [processRec_kept cat st r hok, keptBody_jobs]

/-- Generic consequence of the assignment fold: lookup of a key present in the
stream returns one plus the number of distinct keys seen strictly before its
first occurrence. -/
theorem assign_tbl_lookup {κ : Type} [DecidableEq κ] (ks : List κ) (k : κ)
    (h : memB k ks = true) :
    alookup k (zipFrom 1 (firstOccur ks))
      = some (1 + (firstOccur (ks.takeWhile (fun a => a ≠ k))).length) := by
  have hmem : memB k (firstOccur ks) = true := memB_newKeys k ks [] h rfl
  rw [alookup_zipFrom k (firstOccur ks) 1 hmem]
  simp only [firstOccur]
  rw [posOf_newKeys k ks [] rfl h]

/-- The final tables of a run, via the two characterizations above. -/
theorem runProject_tbls (cat : String → Option String) (recs : List PRec) :
    (runProject cat recs).company.tbl = zipFrom 1 (firstOccur (companyKeySeq recs))
    ∧ (runProject cat recs).location.tbl = zipFrom 1 (firstOccur (locKeySeq recs))
    ∧ (runProject cat recs).role.tbl = zipFrom 1 (firstOccur (roleKeySeq recs))
    ∧ (runProject cat recs).skill.tbl = zipFrom 1 (firstOccur (skillKeySeq cat recs)) := by
  have h := proj_maps_eq cat recs initState
  have e : ∀ {κ : Type} [DecidableEq κ] (ks : List κ),
      (ks.foldl assignStep ⟨[], 1⟩).tbl = zipFrom 1 (firstOccur ks) := by
    intro κ _ ks
    rw [foldl_assignStep_eq]
    simp [firstOccur]
  refine ⟨?_, ?_, ?_, ?_⟩
  · rw [show (runProject cat recs).company = (companyKeySeq recs).foldl assignStep initState.company from h.1]
    exact e _
  · rw [show (runProject cat recs).location = (locKeySeq recs).foldl assignStep initState.location from h.2.1]
    exact e _
  · rw [show (runProject cat recs).role = (roleKeySeq recs).foldl assignStep initState.role from h.2.2.1]
    exact e _
  · rw [show (runProject cat recs).skill = (skillKeySeq cat recs).foldl assignStep initState.skill from h.2.2.2]
    exact e _

/-! ### Claims about the Entity Projector -/

/-- A category map for tests: the empty reference table. -/
def cat0 : String → Option String := fun _ => none

/-- A record carrying only a company name; every other field is missing. -/
def acmeRec : PRec :=
  ⟨some "Acme", none, none, none, none, none, none, none, none, none, none,
   none, none, none, none, none, none, none, none, none, none⟩

/-- Modelled from the spec's words, for refutation only: "the record contains
at least one other non-sentinel, meaningful value" — some cell besides the
company identity is meaningful. -/
def hasOtherMeaningful (r : PRec) : Bool :=
  ((values r).drop 1).any (fun v => !naLike v)

/-- Claim C10: the all-sentinel drop branch of the Entity Projector is
unreachable.  The no-company check runs first, and any record that passes it
has its (non-sentinel) company_name among its values, so the "no meaningful
values" condition is always false and `dropped_all_na` is 0 after every run:
every dropped record is counted under `dropped_no_company`. -/
theorem c10_dropped_all_na_zero (cat : String → Option String) (recs : List PRec) :
    (runProject cat recs).dropped_all_na = 0
    ∧ (runProject cat recs).dropped_no_company
        = (recs.filter (fun r => !companyOk r)).length := by
  constructor
  · simpa [runProject, initState] using (proj_counts cat recs initState).2.2
  · simpa [runProject, initState] using (proj_counts cat recs initState).2.1

/-- Claim C2, counterexample: a record whose company_name is meaningful but
which has no other meaningful value is nevertheless emitted as a JobPosting
(the claim requires it to be dropped). -/
theorem c2_counterexample :
    (runProject cat0 [acmeRec]).job_postings.length = 1
    ∧ hasOtherMeaningful acmeRec = false
    ∧ (runProject cat0 [acmeRec]).dropped_all_na = 0 := by
  refine ⟨?_, ?_, ?_⟩ <;> decide

/-- Claim C2 (amended): a JobPosting row is emitted for a record exactly when
`company_name` is present and non-sentinel; no second condition is checked in
practice, because a record passing the company check always counts its own
company_name as a meaningful value.  Dropped records are counted under
`dropped_no_company`; `dropped_all_na` stays 0. -/
theorem c2_emission_iff_company (cat : String → Option String) (recs : List PRec) :
    (runProject cat recs).job_postings.length = (recs.filter companyOk).length
    ∧ (runProject cat recs).dropped_no_company
        = (recs.filter (fun r => !companyOk r)).length
    ∧ (runProject cat recs).dropped_all_na = 0
    ∧ ∀ (st : ProjState) (r : PRec),
        (processRec cat st r).job_postings
          = st.job_postings ++ (if companyOk r then [jobRowOf st r] else []) := by
  refine ⟨?_, ?_, ?_, ?_⟩
  · simpa [runProject, initState] using (proj_counts cat recs initState).1
  · simpa [runProject, initState] using (proj_counts cat recs initState).2.1
  · simpa [runProject, initState] using (proj_counts cat recs initState).2.2
  · intro st r
    cases hok : companyOk r with
    | false => simp [processRec_dropped cat st r hok]
    | true => simp [processRec_kept cat st r hok, keptBody_jobs]

/-- Enum-or-null check on a projected field. -/
def enumOkB (v : Option String) (es : List String) : Bool :=
  match v with
  | none => true
  | some s => es.contains s

def jobEnumOk (jp : JobRow) : Bool :=
  enumOkB jp.education_level EDUCATION_LEVELS
  && enumOkB jp.employment_type EMPLOYMENT_TYPES
  && enumOkB jp.remote_option REMOTE_OPTIONS

def companyEnumOk (co : CompanyRow) : Bool :=
  enumOkB co.size COMPANY_SIZES && enumOkB co.industry INDUSTRIES

theorem enumOr_ok (v : Option String) (es : List String) :
    enumOkB (enumOr v es) es = true := by
  cases v with
  | none => rfl
  | some s =>
    simp only [enumOr]
    cases h : es.contains s with
    | true => simpa [enumOkB] using h
    | false => simp [enumOkB]

theorem jobRowOf_enum_ok (st : ProjState) (r : PRec) :
    jobEnumOk (jobRowOf st r) = true := by
  simp [jobEnumOk, jobRowOf, enumOr_ok]

theorem jobs_enum_ok_fold (cat : String → Option String) (recs : List PRec) :
    ∀ st : ProjState, (∀ jp ∈ st.job_postings, jobEnumOk jp = true) →
      ∀ jp ∈ (recs.foldl (processRec cat) st).job_postings, jobEnumOk jp = true := by
  induction recs with
  | nil => intro st h; exact h
  | cons r recs ih =>
    intro st h
    simp only [List.foldl_cons]
    cases hok : companyOk r with
    | false =>
      rw [processRec_dropped cat st r hok]
      exact ih _ h
    | true =>
      rw [processRec_kept cat st r hok]
      apply ih
      intro jp hjp
      rw [keptBody_jobs] at hjp
      rcases List.mem_append.mp hjp with h1 | h2
      · exact h jp h1
      · rw [List.mem_singleton.mp h2]
        exact jobRowOf_enum_ok st r

theorem companies_enum_ok_fold (cat : String → Option String) (recs : List PRec) :
    ∀ st : ProjState, (∀ co ∈ st.companies, companyEnumOk co = true) →
      ∀ co ∈ (recs.foldl (processRec cat) st).companies, companyEnumOk co = true := by
  induction recs with
  | nil => intro st h; exact h
  | cons r recs ih =>
    intro st h
    simp only [List.foldl_cons]
    cases hok : companyOk r with
    | false =>
      rw [processRec_dropped cat st r hok]
      exact ih _ h
    | true =>
      rw [processRec_kept cat st r hok]
      apply ih
      intro co hco
      simp only [keptBody] at hco
      revert hco
      cases alookup r.company_name st.company.tbl with
      | some i => intro hco; exact h co hco
      | none =>
        intro hco
        rcases List.mem_append.mp hco with h1 | h2
        · exact h co h1
        · rw [List.mem_singleton.mp h2]
          simp [companyEnumOk, enumOr_ok]

/-- Field-update helpers for the "never rejected on that account" part. -/
def withEdu (r : PRec) (v : Option String) : PRec := { r with education_level := v }

def withEmp (r : PRec) (v : Option String) : PRec := { r with employment_type := v }

def withRem (r : PRec) (v : Option String) : PRec := { r with remote_option := v }

def withSize (r : PRec) (v : Option String) : PRec := { r with company_size := v }

def withInd (r : PRec) (v : Option String) : PRec := { r with industry := v }

/-- Claim C9: every emitted JobPosting row has education_level,
employment_type and remote_option inside their closed enums or null, every
company row has size and industry inside their enums or null, and changing
any of those five fields of a record never changes whether the record is
emitted (an out-of-set value nulls the field, it never rejects the record). -/
theorem c9_enum_revalidation (cat : String → Option String) (recs : List PRec) :
    (∀ jp ∈ (runProject cat recs).job_postings, jobEnumOk jp = true)
    ∧ (∀ co ∈ (runProject cat recs).companies, companyEnumOk co = true)
    ∧ (∀ (st : ProjState) (r : PRec) (v : Option String),
        (processRec cat st (withEdu r v)).job_postings.length
          = (processRec cat st r).job_postings.length
        ∧ (processRec cat st (withEmp r v)).job_postings.length
          = (processRec cat st r).job_postings.length
        ∧ (processRec cat st (withRem r v)).job_postings.length
          = (processRec cat st r).job_postings.length
        ∧ (processRec cat st (withSize r v)).job_postings.length
          = (processRec cat st r).job_postings.length
        ∧ (processRec cat st (withInd r v)).job_postings.length
          = (processRec cat st r).job_postings.length) := by
  refine ⟨?_, ?_, ?_⟩
  · exact jobs_enum_ok_fold cat recs initState (by intro jp h; cases h)
  · exact companies_enum_ok_fold cat recs initState (by intro co h; cases h)
  · intro st r v
    have hE : companyOk (withEdu r v) = companyOk r := rfl
    have hM : companyOk (withEmp r v) = companyOk r := rfl
    have hR : companyOk (withRem r v) = companyOk r := rfl
    have hS : companyOk (withSize r v) = companyOk r := rfl
    have hI : companyOk (withInd r v) = companyOk r := rfl
    refine ⟨?_, ?_, ?_, ?_, ?_⟩ <;>
      simp [emit_count, hE, hM, hR, hS, hI]

/-- Claim C9, witness: the single job row emitted for `acmeRec` satisfies the
enum-or-null check. -/
theorem c9_witness :
    jobEnumOk ⟨1, 1, 1, none, none, none, none, none, none, none, none, none⟩ = true :=
  (c9_enum_revalidation cat0 [acmeRec]).1
    ⟨1, 1, 1, none, none, none, none, none, none, none, none, none⟩ (by decide)

/-- Claim C4: surrogate-key assignment of the Entity Projector.  The final
company/location/role/skill tables list the distinct natural keys of the kept
record stream in first-occurrence order, paired with consecutive ids from 1
(so the first occurrence of a key assigns the next sequential id); looking up
any key occurring in a stream yields one plus the number of distinct keys
first-occurring strictly before it (so later occurrences reuse the id of the
first); and the tables are a function of the natural-key streams alone, so
re-running with identical input order and reference tables reproduces the
same assignment. -/
theorem c4_surrogate_keys (cat : String → Option String) (recs : List PRec) :
    ((runProject cat recs).company.tbl = zipFrom 1 (firstOccur (companyKeySeq recs))
     ∧ (runProject cat recs).location.tbl = zipFrom 1 (firstOccur (locKeySeq recs))
     ∧ (runProject cat recs).role.tbl = zipFrom 1 (firstOccur (roleKeySeq recs))
     ∧ (runProject cat recs).skill.tbl = zipFrom 1 (firstOccur (skillKeySeq cat recs)))
    ∧ (∀ k, memB k (companyKeySeq recs) = true →
        alookup k (runProject cat recs).company.tbl
          = some (1 + (firstOccur ((companyKeySeq recs).takeWhile (fun a => a ≠ k))).length))
    ∧ (∀ k, memB k (locKeySeq recs) = true →
        alookup k (runProject cat recs).location.tbl
          = some (1 + (firstOccur ((locKeySeq recs).takeWhile (fun a => a ≠ k))).length))
    ∧ (∀ k, memB k (roleKeySeq recs) = true →
        alookup k (runProject cat recs).role.tbl
          = some (1 + (firstOccur ((roleKeySeq recs).takeWhile (fun a => a ≠ k))).length))
    ∧ (∀ k, memB k (skillKeySeq cat recs) = true →
        alookup k (runProject cat recs).skill.tbl
          = some (1 + (firstOccur ((skillKeySeq cat recs).takeWhile (fun a => a ≠ k))).length))
    ∧ (∀ (cat' : String → Option String) (recs' : List PRec),
        companyKeySeq recs' = companyKeySeq recs →
        locKeySeq recs' = locKeySeq recs →
        roleKeySeq recs' = roleKeySeq recs →
        skillKeySeq cat' recs' = skillKeySeq cat recs →
        (runProject cat' recs').company.tbl = (runProject cat recs).company.tbl
        ∧ (runProject cat' recs').location.tbl = (runProject cat recs).location.tbl
        ∧ (runProject cat' recs').role.tbl = (runProject cat recs).role.tbl
        ∧ (runProject cat' recs').skill.tbl = (runProject cat recs).skill.tbl) := by
  have ht := runProject_tbls cat recs
  refine ⟨ht, ?_, ?_, ?_, ?_, ?_⟩
  · intro k hk
    rw [ht.1]
    exact assign_tbl_lookup _ k hk
  · intro k hk
    rw [ht.2.1]
    exact assign_tbl_lookup _ k hk
  · intro k hk
    rw [ht.2.2.1]
    exact assign_tbl_lookup _ k hk
  · intro k hk
    rw [ht.2.2.2]
    exact assign_tbl_lookup _ k hk
  · intro cat' recs' h1 h2 h3 h4
    have ht' := runProject_tbls cat' recs'
    exact ⟨by rw [ht'.1, ht.1, h1], by rw [ht'.2.1, ht.2.1, h2],
           by rw [ht'.2.2.1, ht.2.2.1, h3], by rw [ht'.2.2.2, ht.2.2.2, h4]⟩

/-!
### Canonicalizer — `2.3_normalizing_values.py`

Per-field value normalization.  Cell values arrive as `Option String`
(`none` = pandas `NaN`).  Reference tables (`currency_mapping.csv`,
`employment_type_mapping.csv`, `city_alias_reference.csv`, `cities.csv`,
`skill_mapping.csv` — data files, not source) are parameters: association
lists whose keys are already normalized exactly as the loaders build them.
`normalize_text` (NFKD + combining-strip + `[^\w\s]` removal + whitespace
collapse + strip + upper) is modelled on its ASCII fragment, where Unicode
normalization is the identity.
-/

/-- `normalize_text` of the canonicalizer (ASCII fragment). -/
def normalize_text_23 (s : String) : String :=
  ⟨upperL (pyStrip (collapseWs false (s.data.filter (fun c => isWordC c || isSp c))))⟩

/-- `normalize_company_name`: `NaN → "__NA__"`, else strip then collapse
whitespace runs to single spaces. -/
def normalize_company_name (x : Option String) : String :=
  match x with
  | none => "__NA__"
  | some s => ⟨collapseWs false (pyStrip s.data)⟩

/-- The key cleaning inside `normalize_currency`: strip, lower, underscores
to spaces, collapse whitespace. -/
def cleanCurrencyKey (s : String) : String :=
  ⟨collapseWs false ((lowerL (pyStrip s.data)).map (fun c => if c = '_' then ' ' else c))⟩

/-- `normalize_currency`: `NaN` and the NA sentinel pass through unchanged;
otherwise table lookup on the cleaned key, miss yields the NA sentinel. -/
def normalize_currency (tbl : List (String × String)) (x : Option String) : Option String :=
  match x with
  | none => none
  | some s =>
    if s = "__NA__" then some s
    else
      match alookup (cleanCurrencyKey s) tbl with
      | some c => some c
      | none => some "__NA__"

/-- `normalize_remote_option`. -/
def normalize_remote_option (x : Option String) : String :=
  match x with
  | none => "__NA__"
  | some s =>
    let v := strStrip s
    if v = "" ∨ v = "__NA__" then "__NA__"
    else if v = "0" ∨ v = "0.0" then "Onsite"
    else if v = "50" ∨ v = "50.0" then "Hybrid"
    else if v = "100" ∨ v = "100.0" then "Remote"
    else if strUpper v = "TRUE" then "Remote"
    else if strUpper v = "FALSE" then "Onsite"
    else "__INVALID__"

/-- `normalize_employment_type`. -/
def normalize_employment_type (tbl : List (String × String)) (x : Option String) : String :=
  match x with
  | none => "__NA__"
  | some s0 =>
    let s := strStrip s0
    if s = "" ∨ strUpper s = "__NA__" then "__NA__"
    else
      match alookup (normalize_text_23 s) tbl with
      | some c => c
      | none => "__INVALID__"

/-- `EXP_LEVEL_MAP`. -/
def EXP_LEVEL_MAP : List (String × String) := [("EN", "0"), ("MI", "2"), ("SE", "5"), ("EX", "8")]

/-- The `required_exp_years` column operation:
`.astype(str).str.strip().str.upper()` then `EXP_LEVEL_MAP.get(x, x)`
(pandas renders `NaN` as the string `"nan"` under `astype(str)`). -/
def normalize_exp_years (x : Option String) : String :=
  let s := match x with
    | none => "nan"
    | some v => v
  let u := strUpper (strStrip s)
  (alookup u EXP_LEVEL_MAP).getD u

/-- Does the string consist of exactly four ASCII digits (`re.fullmatch(r"\d{4}", ·)`)? -/
def isFourDigits (s : String) : Bool :=
  match s.data with
  | [a, b, c, d] => isDig a && isDig b && isDig c && isDig d
  | _ => false

/-- `normalize_posted_date`, string path (the input column is read with
`dtype=str`, so the numeric serial-date branch and the `strftime`-object
branch cannot fire; cells are `NaN` or strings).  The two library calls
`pd.to_datetime(·, format="%m/%d/%Y %H:%M", errors="coerce")` and the
general `pd.to_datetime(·, errors="coerce")`, each composed with
`strftime("%Y-%m-%d")`, are parameters `pFmt` and `pGen`. -/
def normalize_posted_date (pFmt pGen : String → Option String) (x : Option String) : String :=
  match x with
  | none => "__NA__"
  | some s0 =>
    let s := strStrip s0
    if s = "" ∨ s = "__NA__" then "__NA__"
    else if isFourDigits s then s ++ "-01-01"
    else
      match pFmt s with
      | some d => d
      | none =>
        match pGen s with
        | some d => d
        | none => "__NA__"

/-- Two-level city resolution of `normalize_city_file`: the raw cell
(`fillna("__NA__")` applied) is normalized, resolved through the alias table
to a canonical key, then through the cities table to the official name;
failure at either level yields the UNMATCHED sentinel. -/
def resolve_city (aliasTbl nameTbl : List (String × String)) (raw : Option String) : String :=
  let rawS := match raw with
    | none => "__NA__"
    | some s => s
  let norm := normalize_text_23 rawS
  if norm = "__NA__" then "__NA__"
  else
    match alookup norm aliasTbl with
    | some canonical =>
      match alookup (normalize_text_23 canonical) nameTbl with
      | some official => official
      | none => "__UNMATCHED__"
    | none => "__UNMATCHED__"

/-- Quoted chunks `'([^']+)'` found left to right, non-overlapping
(`re.findall` for the list-wrapper branch). -/
def findQuotedChunks : Nat → List Char → List (List Char)
  | 0, _ => []
  | _, [] => []
  | fuel + 1, c :: rest =>
    if c = '\'' then
      let chunk := rest.takeWhile (fun d => d ≠ '\'')
      if chunk.isEmpty then findQuotedChunks fuel rest
      else
        match rest.drop chunk.length with
        | q :: tail => if q = '\'' then chunk :: findQuotedChunks fuel tail else []
        | [] => []
    else findQuotedChunks fuel rest

/-- Quoted keys `'([^']+)'\s*:` found left to right, non-overlapping
(`re.findall` for the dict-wrapper branch). -/
def findDictKeys : Nat → List Char → List (List Char)
  | 0, _ => []
  | _, [] => []
  | fuel + 1, c :: rest =>
    if c = '\'' then
      let chunk := rest.takeWhile (fun d => d ≠ '\'')
      if chunk.isEmpty then findDictKeys fuel rest
      else
        match rest.drop chunk.length with
        | q :: tail =>
          if q = '\'' then
            match tail.dropWhile isSp with
            | ':' :: tail2 => chunk :: findDictKeys fuel tail2
            | _ => findDictKeys fuel rest
          else []
        | [] => []
    else findDictKeys fuel rest

/-- `clean_skill_field_shape`: shape-only cleaning of skill fields. -/
def clean_skill_field_shape (x : Option String) : String :=
  match x with
  | none => "__NA__"
  | some s0 =>
    let s := strStrip s0
    if s = "" ∨ s = "__NA__" then "__NA__"
    else if s.data.head? = some '{' ∧ s.data.getLast? = some '}' then
      let keys := findDictKeys (s.data.length + 1) s.data
      if keys.isEmpty then "__NA__" else ⟨joinSep ['|'] keys⟩
    else if s.data.head? = some '[' ∧ s.data.getLast? = some ']' then
      let items := findQuotedChunks (s.data.length + 1) s.data
      if items.isEmpty then "__NA__" else ⟨joinSep ['|'] items⟩
    else s

/-- The multi-separator class of the skill tokenizer: `[|,/;\n\-]+`. -/
def skillSepC (c : Char) : Bool :=
  c = '|' ∨ c = ',' ∨ c = '/' ∨ c = ';' ∨ c = '\n' ∨ c = '-'

/-- Tokens of a skill cell: split on the separator class, strip, drop blanks. -/
def skillFieldTokens (s : String) : List (List Char) :=
  ((splitBy skillSepC s.data).map pyStrip).filter (fun t => !t.isEmpty)

/-- `Option Char` word test for regex `\b`. -/
def isWordOpt : Option Char → Bool
  | none => false
  | some c => isWordC c

/-- `re.search(rf"\b{re.escape(key)}\b", tn)`: the key occurs with word
boundaries on both sides. -/
def wordBoundaryMatch (key tn : List Char) : Bool :=
  (List.range (tn.length + 1)).any (fun i =>
    matchAt key (tn.drop i)
    && (isWordOpt (if i = 0 then none else tn.get? (i - 1)) != isWordOpt key.head?)
    && (isWordOpt key.getLast? != isWordOpt (tn.get? (i + key.length))))

/-- Strong-term scan, dict iteration order. -/
def strongScan (tn : String) : List (String × String) → Option String
  | [] => none
  | (k, c) :: rest => if wordBoundaryMatch k.data tn.data then some c else strongScan tn rest

/-- Token resolution: alias-exact first, then strong-term word-boundary
substring. -/
def resolveSkillToken (aliasTbl strongTbl : List (String × String)) (tn : String) : Option String :=
  match alookup tn aliasTbl with
  | some c => some c
  | none => strongScan tn strongTbl

/-- The unmatched-skill audit: `UNMATCHED_SKILL_COUNTER` and
`UNMATCHED_SKILL_SOURCE`. -/
structure SkillAudit where
  counter : List (String × Nat)
  source : List (String × String)
  deriving DecidableEq, Repr

def audit0 : SkillAudit := ⟨[], []⟩

/-- `Counter[k] += 1`. -/
def bumpCounter (k : String) : List (String × Nat) → List (String × Nat)
  | [] => [(k, 1)]
  | (k', n) :: rest => if k' = k then (k', n + 1) :: rest else (k', n) :: bumpCounter k rest

def counterOf (tbl : List (String × Nat)) (k : String) : Nat := (alookup k tbl).getD 0

/-- Per-token body of `normalize_skill_name_with_mapping`'s loop. -/
def skillTokenStep (aliasTbl strongTbl : List (String × String))
    (acc : List String × SkillAudit) (tok : List Char) : List String × SkillAudit :=
  let tn := normalize_text_23 ⟨tok⟩
  if tn.length ≤ 2 then acc
  else
    match resolveSkillToken aliasTbl strongTbl tn with
    | some c => (acc.1 ++ [c], acc.2)
    | none =>
      (acc.1,
       ⟨bumpCounter tn acc.2.counter,
        if (alookup tn acc.2.source).isSome then acc.2.source
        else acc.2.source ++ [(tn, ⟨tok⟩)]⟩)

/-- `normalize_skill_name_with_mapping`, with the audit state threaded
explicitly (the Python globals `UNMATCHED_SKILL_COUNTER` / `_SOURCE`). -/
def normalize_skill_name_with_mapping (aliasTbl strongTbl : List (String × String))
    (x : Option String) (audit : SkillAudit) : String × SkillAudit :=
  match x with
  | none => ("__NA__", audit)
  | some s0 =>
    let s := strStrip s0
    if s = "" ∨ s = "__NA__" then ("__NA__", audit)
    else
      let tokens := skillFieldTokens s
      if tokens.isEmpty then ("__NA__", audit)
      else
        let res := tokens.foldl (skillTokenStep aliasTbl strongTbl) ([], audit)
        let out := firstOccur res.1
        (if out.isEmpty then "__NA__" else ⟨joinSep ['|'] (out.map String.data)⟩, res.2)

/-- The resolved canonical skills of a cell, in token order (before
deduplication): the pure projection of the loop's accumulation. -/
def resolvedSkills (aliasTbl strongTbl : List (String × String)) (s : String) : List String :=
  (skillFieldTokens s).filterMap (fun tok =>
    let tn := normalize_text_23 ⟨tok⟩
    if tn.length ≤ 2 then none else resolveSkillToken aliasTbl strongTbl tn)

/-- The full per-value skill-field canonicalization of the file:
shape cleaning, then reference-based normalization. -/
def canonSkill (aliasTbl strongTbl : List (String × String))
    (x : Option String) (audit : SkillAudit) : String × SkillAudit :=
  normalize_skill_name_with_mapping aliasTbl strongTbl
    (some (clean_skill_field_shape x)) audit

/-! ### Claims about closed-enum canonicalization (C8) -/

/-- Claim C8, counterexample: a present currency value that resolves against
no table entry is set to the NA sentinel, not to the INVALID sentinel as the
claim requires. -/
theorem c8_counterexample :
    normalize_currency [] (some "zzz") = some "__NA__"
    ∧ normalize_currency [] (some "zzz") ≠ some "__INVALID__" := by
  exact ⟨by decide, by decide⟩

/-- Claim C8 (amended): for employment_type and remote_option every present
(non-NA, non-blank) value that does not resolve — by table lookup, or for
remote_option by the numeric percentage encodings 0/50/100 or a boolean — is
set to the INVALID sentinel; for currency an unresolved present value is set
to the NA sentinel instead (never left raw, and never INVALID). -/
theorem c8_enum_failures :
    (∀ x : String,
       strStrip x ≠ "" → strStrip x ≠ "__NA__" →
       strStrip x ≠ "0" → strStrip x ≠ "0.0" →
       strStrip x ≠ "50" → strStrip x ≠ "50.0" →
       strStrip x ≠ "100" → strStrip x ≠ "100.0" →
       strUpper (strStrip x) ≠ "TRUE" → strUpper (strStrip x) ≠ "FALSE" →
       normalize_remote_option (some x) = "__INVALID__")
    ∧ (∀ (tbl : List (String × String)) (x : String),
       strStrip x ≠ "" → strUpper (strStrip x) ≠ "__NA__" →
       alookup (normalize_text_23 (strStrip x)) tbl = none →
       normalize_employment_type tbl (some x) = "__INVALID__")
    ∧ (∀ (tbl : List (String × String)) (x : String),
       x ≠ "__NA__" →
       alookup (cleanCurrencyKey x) tbl = none →
       normalize_currency tbl (some x) = some "__NA__") := by
  refine ⟨?_, ?_, ?_⟩
  · intro x h1 h2 h3 h4 h5 h6 h7 h8 h9 h10
    simp [normalize_remote_option, h1, h2, h3, h4, h5, h6, h7, h8, h9, h10]
  · intro tbl x h1 h2 h3
    simp [normalize_employment_type, h1, h2, h3]
  · intro tbl x h1 h2
    simp [normalize_currency, h1, h2]

/-- Claim C8, witness: concrete unresolved values for the three fields. -/
theorem c8_witness :
    normalize_remote_option (some "banana") = "__INVALID__"
    ∧ normalize_employment_type [] (some "banana") = "__INVALID__"
    ∧ normalize_currency [] (some "banana") = some "__NA__" :=
  ⟨c8_enum_failures.1 "banana" (by decide) (by decide) (by decide) (by decide)
     (by decide) (by decide) (by decide) (by decide) (by decide) (by decide),
   c8_enum_failures.2.1 [] "banana" (by decide) (by decide) (by decide),
   c8_enum_failures.2.2 [] "banana" (by decide) (by decide)⟩

/-! ### Claims about skill canonicalization (C7) -/

theorem skill_fold_fst (aliasTbl strongTbl : List (String × String)) (toks : List (List Char)) :
    ∀ acc : List String × SkillAudit,
      (toks.foldl (skillTokenStep aliasTbl strongTbl) acc).1
        = acc.1 ++ toks.filterMap (fun tok =>
            let tn := normalize_text_23 ⟨tok⟩
            if tn.length ≤ 2 then none else resolveSkillToken aliasTbl strongTbl tn) := by
  induction toks with
  | nil => intro acc; simp
  | cons t ts ih =>
    intro acc
    simp only [List.foldl_cons, List.filterMap_cons]
    by_cases hlen : (normalize_text_23 ⟨t⟩).length ≤ 2
    · simp only [skillTokenStep, if_pos hlen, hlen, ih]
      simp
    · cases hres : resolveSkillToken aliasTbl strongTbl (normalize_text_23 ⟨t⟩) with
      | some c =>
        simp only [skillTokenStep, if_neg hlen, hres, ih, hlen]
        simp
      | none =>
        simp only [skillTokenStep, if_neg hlen, hres, ih, hlen]
        simp

theorem counterOf_bump_self (k : String) (tbl : List (String × Nat)) :
    counterOf (bumpCounter k tbl) k = counterOf tbl k + 1 := by
  induction tbl with
  | nil => simp [bumpCounter, counterOf, alookup]
  | cons p rest ih =>
    by_cases h : p.1 = k
    · simp [bumpCounter, counterOf, alookup, h]
    · have h' : ¬ k = p.1 := fun hh => h hh.symm
      simp only [bumpCounter]
      rw [if_neg h]
      simp only [counterOf, alookup]
      rw [if_neg h', if_neg h']
      exact ih

theorem counterOf_bump_le (k k' : String) (tbl : List (String × Nat)) :
    counterOf tbl k ≤ counterOf (bumpCounter k' tbl) k := by
  induction tbl with
  | nil =>
    simp only [bumpCounter, counterOf, alookup]
    by_cases h : k = k' <;> simp [h]
  | cons p rest ih =>
    by_cases h : p.1 = k'
    · simp only [bumpCounter, if_pos h, counterOf, alookup]
      by_cases hk : k = p.1 <;> simp [hk]
    · simp only [bumpCounter, if_neg h, counterOf, alookup]
      by_cases hk : k = p.1
      · simp [hk]
      · simp only [if_neg hk]
        exact ih

theorem skill_step_counter_le (aliasTbl strongTbl : List (String × String))
    (acc : List String × SkillAudit) (tok : List Char) (k : String) :
    counterOf acc.2.counter k
      ≤ counterOf ((skillTokenStep aliasTbl strongTbl acc tok)).2.counter k := by
  simp only [skillTokenStep]
  by_cases hlen : (normalize_text_23 ⟨tok⟩).length ≤ 2
  · simp [hlen]
  · cases hres : resolveSkillToken aliasTbl strongTbl (normalize_text_23 ⟨tok⟩) with
    | some c => simp [hlen, hres]
    | none =>
      simp only [if_neg hlen, hres]
      exact counterOf_bump_le k _ acc.2.counter

theorem skill_fold_counter_le (aliasTbl strongTbl : List (String × String))
    (toks : List (List Char)) :
    ∀ (acc : List String × SkillAudit) (k : String),
      counterOf acc.2.counter k
        ≤ counterOf ((toks.foldl (skillTokenStep aliasTbl strongTbl) acc)).2.counter k := by
  induction toks with
  | nil => intro acc k; simp
  | cons t ts ih =>
    intro acc k
    calc counterOf acc.2.counter k
        ≤ counterOf ((skillTokenStep aliasTbl strongTbl acc t)).2.counter k :=
          skill_step_counter_le aliasTbl strongTbl acc t k
      _ ≤ _ := ih _ k

theorem alookup_append_self {β : Type} (k : String) (v : β) (l : List (String × β)) :
    (alookup k (l ++ [(k, v)])).isSome = true := by
  induction l with
  | nil => simp [alookup]
  | cons p rest ih =>
    simp only [List.cons_append, alookup]
    by_cases hk : k = p.1
    · simp [hk]
    · rw [if_neg hk]
      exact ih

theorem alookup_append_isSome {β : Type} (k : String) (l1 l2 : List (String × β)) :
    (alookup k l1).isSome = true → (alookup k (l1 ++ l2)).isSome = true := by
  induction l1 with
  | nil => intro h; simp [alookup] at h
  | cons p rest ih =>
    intro h
    simp only [List.cons_append, alookup]
    by_cases hk : k = p.1
    · simp [hk]
    · rw [if_neg hk]
      exact ih (by simpa [alookup, hk] using h)

theorem skill_step_source_mono (aliasTbl strongTbl : List (String × String))
    (acc : List String × SkillAudit) (tok : List Char) (k : String) :
    (alookup k acc.2.source).isSome = true →
    (alookup k ((skillTokenStep aliasTbl strongTbl acc tok)).2.source).isSome = true := by
  intro h
  simp only [skillTokenStep]
  by_cases hlen : (normalize_text_23 ⟨tok⟩).length ≤ 2
  · simpa [hlen] using h
  · cases hres : resolveSkillToken aliasTbl strongTbl (normalize_text_23 ⟨tok⟩) with
    | some c => simpa [hlen, hres] using h
    | none =>
      simp only [if_neg hlen, hres]
      by_cases hs : (alookup (normalize_text_23 ⟨tok⟩) acc.2.source).isSome = true
      · simpa [hs] using h
      · simp only [Bool.not_eq_true] at hs
        simp only [hs]
        simp only [Bool.false_eq_true, if_false]
        exact alookup_append_isSome k _ _ h

theorem skill_fold_source_mono (aliasTbl strongTbl : List (String × String))
    (toks : List (List Char)) :
    ∀ (acc : List String × SkillAudit) (k : String),
      (alookup k acc.2.source).isSome = true →
      (alookup k ((toks.foldl (skillTokenStep aliasTbl strongTbl) acc)).2.source).isSome = true := by
  induction toks with
  | nil => intro acc k h; exact h
  | cons t ts ih =>
    intro acc k h
    exact ih _ k (skill_step_source_mono aliasTbl strongTbl acc t k h)

/-- After processing a token that fails to resolve, its counter strictly
exceeds the incoming value and a raw example is recorded. -/
theorem skill_fold_unmatched (aliasTbl strongTbl : List (String × String))
    (toks : List (List Char)) :
    ∀ (acc : List String × SkillAudit) (tok : List Char),
      tok ∈ toks →
      2 < (normalize_text_23 ⟨tok⟩).length →
      resolveSkillToken aliasTbl strongTbl (normalize_text_23 ⟨tok⟩) = none →
      counterOf acc.2.counter (normalize_text_23 ⟨tok⟩) + 1
        ≤ counterOf ((toks.foldl (skillTokenStep aliasTbl strongTbl) acc)).2.counter
            (normalize_text_23 ⟨tok⟩)
      ∧ (alookup (normalize_text_23 ⟨tok⟩)
          ((toks.foldl (skillTokenStep aliasTbl strongTbl) acc)).2.source).isSome = true := by
  induction toks with
  | nil => intro acc tok h; cases h
  | cons t ts ih =>
    intro acc tok hmem hlen hres
    rcases List.mem_cons.mp hmem with heq | hmem'
    · subst heq
      have hlen' : ¬ (normalize_text_23 ⟨tok⟩).length ≤ 2 := by omega
      constructor
      · have hstep : counterOf ((skillTokenStep aliasTbl strongTbl acc tok)).2.counter
            (normalize_text_23 ⟨tok⟩) = counterOf acc.2.counter (normalize_text_23 ⟨tok⟩) + 1 := by
          simp only [skillTokenStep, if_neg hlen', hres]
          exact counterOf_bump_self _ _
        simp only [List.foldl_cons]
        calc counterOf acc.2.counter (normalize_text_23 ⟨tok⟩) + 1
            = counterOf ((skillTokenStep aliasTbl strongTbl acc tok)).2.counter
                (normalize_text_23 ⟨tok⟩) := hstep.symm
          _ ≤ _ := skill_fold_counter_le aliasTbl strongTbl ts _ _
      · simp only [List.foldl_cons]
        apply skill_fold_source_mono
        simp only [skillTokenStep, if_neg hlen', hres]
        by_cases hs : (alookup (normalize_text_23 ⟨tok⟩) acc.2.source).isSome = true
        · simp [hs]
        · simp only [Bool.not_eq_true] at hs
          simp only [hs, Bool.false_eq_true, if_false]
          exact alookup_append_self _ _ _
    · have h := ih (skillTokenStep aliasTbl strongTbl acc t) tok hmem' hlen hres
      simp only [List.foldl_cons]
      refine ⟨?_, h.2⟩
      calc counterOf acc.2.counter (normalize_text_23 ⟨tok⟩) + 1
          ≤ counterOf ((skillTokenStep aliasTbl strongTbl acc t)).2.counter
              (normalize_text_23 ⟨tok⟩) + 1 := by
            have := skill_step_counter_le aliasTbl strongTbl acc t (normalize_text_23 ⟨tok⟩)
            omega
        _ ≤ _ := h.1

/-! ### Idempotence of the Canonicalizer (claim C3) -/

/-- Closure of the currency table: every canonical output cleans back to a
key of the table bound to itself (true of a table whose aliases include each
canonical code's own lowercase spelling). -/
def currencyTblOk (tbl : List (String × String)) : Bool :=
  tbl.all (fun p => decide (alookup (cleanCurrencyKey p.2) tbl = some p.2))

/-- Closure of the employment-type table: every canonical output normalizes
back to a key of the table bound to itself, and the INVALID sentinel is not a
key. -/
def employmentTblOk (tbl : List (String × String)) : Bool :=
  tbl.all (fun p =>
    !(strStrip p.2).data.isEmpty
    && decide (strUpper (strStrip p.2) ≠ "__NA__")
    && decide (alookup (normalize_text_23 (strStrip p.2)) tbl = some p.2))
  && decide (alookup "__INVALID__" tbl = none)

/-- Closure of the city tables: every official city name resolves through the
alias table and back to itself, and the UNMATCHED sentinel is not an alias. -/
def cityTblOk (aliasTbl nameTbl : List (String × String)) : Bool :=
  nameTbl.all (fun p =>
    decide (normalize_text_23 p.2 ≠ "__NA__")
    && (match alookup (normalize_text_23 p.2) aliasTbl with
        | some c => decide (alookup (normalize_text_23 c) nameTbl = some p.2)
        | none => false))
  && decide (alookup "__UNMATCHED__" aliasTbl = none)

/-- Well-formedness of one canonical skill for re-normalization: non-blank,
no whitespace at the ends, no wrapper or separator characters, a normalized
form longer than the trivial-noise cutoff, and alias-resolving to itself. -/
def canonOk (aliasTbl : List (String × String)) (c : String) : Bool :=
  !c.data.isEmpty
  && (match c.data.head? with
      | some ch => !isSp ch && !(ch = '{') && !(ch = '[')
      | none => false)
  && (match c.data.getLast? with
      | some ch => !isSp ch
      | none => false)
  && c.data.all (fun ch => !skillSepC ch)
  && decide (2 < (normalize_text_23 c).length)
  && decide (alookup (normalize_text_23 c) aliasTbl = some c)

/-- Closure of the skill registry: every canonical value of either lookup is
well-formed for re-normalization. -/
def skillTblOk (aliasTbl strongTbl : List (String × String)) : Bool :=
  (aliasTbl.map Prod.snd ++ strongTbl.map Prod.snd).all (canonOk aliasTbl)

theorem company_name_idem (x : Option String) :
    normalize_company_name (some (normalize_company_name x)) = normalize_company_name x := by
  cases x with
  | none =>
    show normalize_company_name (some "__NA__") = "__NA__"
    decide
  | some s =>
    show normalize_company_name (some ⟨collapseWs false (pyStrip s.data)⟩)
        = ⟨collapseWs false (pyStrip s.data)⟩
    simp only [normalize_company_name]
    have h2 : okFrom false (collapseWs false (pyStrip s.data)) = true :=
      (ok_of_collapse (pyStrip s.data) (lastNonSp_pyStrip s.data)).1
    have h3 : pyStrip (collapseWs false (pyStrip s.data))
        = collapseWs false (pyStrip s.data) :=
      pyStrip_eq_self _ (headNonSp_collapse _ (headNonSp_pyStrip s.data))
        (ok_last _ false h2)
    congr 1
    rw [h3]
    exact collapse_of_ok _ false h2

theorem exp_years_idem (x : Option String) :
    normalize_exp_years (some (normalize_exp_years x)) = normalize_exp_years x := by
  have core : ∀ s : String,
      normalize_exp_years (some (normalize_exp_years (some s)))
        = normalize_exp_years (some s) := by
    intro s
    cases h : alookup (strUpper (strStrip s)) EXP_LEVEL_MAP with
    | some v =>
      have hres : normalize_exp_years (some s) = v := by
        simp only [normalize_exp_years, h, Option.getD_some]
      rw [hres]
      have hm := alookup_mem _ v _ h
      have hv : v = "0" ∨ v = "2" ∨ v = "5" ∨ v = "8" := by
        simp only [EXP_LEVEL_MAP, List.mem_cons, List.not_mem_nil, or_false,
          Prod.mk.injEq] at hm
        rcases hm with ⟨_, h1⟩ | ⟨_, h1⟩ | ⟨_, h1⟩ | ⟨_, h1⟩
        · exact Or.inl h1
        · exact Or.inr (Or.inl h1)
        · exact Or.inr (Or.inr (Or.inl h1))
        · exact Or.inr (Or.inr (Or.inr h1))
      rcases hv with rfl | rfl | rfl | rfl <;> decide
    | none =>
      have hres : normalize_exp_years (some s) = strUpper (strStrip s) := by
        simp only [normalize_exp_years, h, Option.getD_none]
      rw [hres]
      have hu : strUpper (strStrip (strUpper (strStrip s))) = strUpper (strStrip s) := by
        show (⟨upperL (pyStrip (upperL (pyStrip s.data)))⟩ : String)
            = ⟨upperL (pyStrip s.data)⟩
        rw [pyStrip_upperL_pyStrip, upperL_idem]
      simp only [normalize_exp_years]
      rw [hu, h]
      rfl
  cases x with
  | none =>
    have h0 : normalize_exp_years none = normalize_exp_years (some "nan") := rfl
    rw [h0]
    exact core "nan"
  | some s => exact core s

theorem currency_idem (tbl : List (String × String)) (hc : currencyTblOk tbl = true)
    (x : Option String) :
    normalize_currency tbl (normalize_currency tbl x) = normalize_currency tbl x := by
  have hNAcase : normalize_currency tbl (some "__NA__") = some "__NA__" := by
    simp [normalize_currency]
  cases x with
  | none => rfl
  | some s =>
    by_cases hna : s = "__NA__"
    · rw [show normalize_currency tbl (some s) = some "__NA__" from by
        rw [hna]; exact hNAcase]
      exact hNAcase
    · cases h : alookup (cleanCurrencyKey s) tbl with
      | some c =>
        have hres : normalize_currency tbl (some s) = some c := by
          simp only [normalize_currency]
          rw [if_neg hna, h]
        rw [hres]
        by_cases hcna : c = "__NA__"
        · rw [hcna]; exact hNAcase
        · have hm := alookup_mem _ c _ h
          have hcc := List.all_eq_true.mp hc _ hm
          simp only [decide_eq_true_eq] at hcc
          simp only [normalize_currency]
          rw [if_neg hcna, hcc]
      | none =>
        have hres : normalize_currency tbl (some s) = some "__NA__" := by
          simp only [normalize_currency]
          rw [if_neg hna, h]
        rw [hres]
        exact hNAcase

theorem employment_idem (tbl : List (String × String)) (he : employmentTblOk tbl = true)
    (x : Option String) :
    normalize_employment_type tbl (some (normalize_employment_type tbl x))
      = normalize_employment_type tbl x := by
  have hinv : alookup "__INVALID__" tbl = none := by
    have := (Bool.and_eq_true _ _ |>.mp he).2
    simpa using this
  have hrows := (Bool.and_eq_true _ _ |>.mp he).1
  have hNAcase : normalize_employment_type tbl (some "__NA__") = "__NA__" := by
    simp only [normalize_employment_type]
    rw [if_pos (Or.inr (by decide))]
  cases x with
  | none => exact hNAcase
  | some s0 =>
    by_cases hb : strStrip s0 = "" ∨ strUpper (strStrip s0) = "__NA__"
    · rw [show normalize_employment_type tbl (some s0) = "__NA__" from by
        simp only [normalize_employment_type]; rw [if_pos hb]]
      exact hNAcase
    · cases h : alookup (normalize_text_23 (strStrip s0)) tbl with
      | some c =>
        have hres : normalize_employment_type tbl (some s0) = c := by
          simp only [normalize_employment_type]
          rw [if_neg hb, h]
        rw [hres]
        have hm := alookup_mem _ c _ h
        have hcc := List.all_eq_true.mp hrows _ hm
        simp only [Bool.and_eq_true, decide_eq_true_eq, Bool.not_eq_true'] at hcc
        simp only [normalize_employment_type]
        rw [if_neg (by
          rintro (h1 | h1)
          · have hdata : (strStrip c).data = [] := by rw [h1]
            rw [hdata] at hcc
            simp at hcc
          · exact hcc.1.2 h1)]
        rw [hcc.2]
      | none =>
        have hres : normalize_employment_type tbl (some s0) = "__INVALID__" := by
          simp only [normalize_employment_type]
          rw [if_neg hb, h]
        rw [hres]
        simp only [normalize_employment_type]
        rw [if_neg (by decide)]
        rw [show normalize_text_23 (strStrip "__INVALID__") = "__INVALID__" from by decide]
        rw [hinv]

theorem city_idem (aliasTbl nameTbl : List (String × String))
    (h : cityTblOk aliasTbl nameTbl = true) (x : Option String) :
    resolve_city aliasTbl nameTbl (some (resolve_city aliasTbl nameTbl x))
      = resolve_city aliasTbl nameTbl x := by
  have hum : alookup "__UNMATCHED__" aliasTbl = none := by
    have := (Bool.and_eq_true _ _ |>.mp h).2
    simpa using this
  have hrows := (Bool.and_eq_true _ _ |>.mp h).1
  have hNAcase : resolve_city aliasTbl nameTbl (some "__NA__") = "__NA__" := by
    simp only [resolve_city]
    rw [if_pos (by decide)]
  have hUMcase : resolve_city aliasTbl nameTbl (some "__UNMATCHED__") = "__UNMATCHED__" := by
    simp only [resolve_city]
    rw [if_neg (by decide)]
    rw [show normalize_text_23 "__UNMATCHED__" = "__UNMATCHED__" from by decide]
    rw [hum]
  have core : ∀ rawS : String,
      resolve_city aliasTbl nameTbl (some (resolve_city aliasTbl nameTbl (some rawS)))
        = resolve_city aliasTbl nameTbl (some rawS) := by
    intro rawS
    by_cases hna : normalize_text_23 rawS = "__NA__"
    · rw [show resolve_city aliasTbl nameTbl (some rawS) = "__NA__" from by
        simp only [resolve_city]; rw [if_pos hna]]
      exact hNAcase
    · cases h1 : alookup (normalize_text_23 rawS) aliasTbl with
      | none =>
        rw [show resolve_city aliasTbl nameTbl (some rawS) = "__UNMATCHED__" from by
          simp only [resolve_city]; rw [if_neg hna, h1]]
        exact hUMcase
      | some canonical =>
        have hres1 : resolve_city aliasTbl nameTbl (some rawS)
            = (match alookup (normalize_text_23 canonical) nameTbl with
               | some official => official
               | none => "__UNMATCHED__") := by
          simp only [resolve_city]
          rw [if_neg hna, h1]
        cases h2 : alookup (normalize_text_23 canonical) nameTbl with
        | none =>
          rw [show resolve_city aliasTbl nameTbl (some rawS) = "__UNMATCHED__" from by
            rw [hres1, h2]]
          exact hUMcase
        | some official =>
          rw [show resolve_city aliasTbl nameTbl (some rawS) = official from by
            rw [hres1, h2]]
          have hm := alookup_mem _ official _ h2
          have hcc := List.all_eq_true.mp hrows _ hm
          simp only [Bool.and_eq_true, decide_eq_true_eq] at hcc
          obtain ⟨hne, hmatch⟩ := hcc
          cases h3 : alookup (normalize_text_23 official) aliasTbl with
          | none => rw [h3] at hmatch; cases hmatch
          | some c2 =>
            rw [h3] at hmatch
            simp only [decide_eq_true_eq] at hmatch
            have hres2 : resolve_city aliasTbl nameTbl (some official)
                = (match alookup (normalize_text_23 c2) nameTbl with
                   | some o => o
                   | none => "__UNMATCHED__") := by
              simp only [resolve_city]
              rw [if_neg hne, h3]
            rw [hres2, hmatch]
  cases x with
  | none => exact core "__NA__"
  | some s => exact core s

theorem isSp_of_isDig (c : Char) (h : isDig c = true) : isSp c = false := by
  simp only [isDig, decide_eq_true_eq] at h
  simp only [isSp]
  apply decide_eq_false
  rintro (rfl | rfl | rfl | rfl | rfl | rfl) <;> exact absurd h.1 (by decide)

theorem fourDigits_facts (s : String) (h : isFourDigits s = true) :
    strStrip (s ++ "-01-01") = s ++ "-01-01"
    ∧ (s ++ "-01-01") ≠ ""
    ∧ (s ++ "-01-01") ≠ "__NA__"
    ∧ isFourDigits (s ++ "-01-01") = false := by
  rcases s with ⟨data⟩
  cases data with
  | nil => simp [isFourDigits] at h
  | cons a t1 =>
  cases t1 with
  | nil => simp [isFourDigits] at h
  | cons b t2 =>
  cases t2 with
  | nil => simp [isFourDigits] at h
  | cons c t3 =>
  cases t3 with
  | nil => simp [isFourDigits] at h
  | cons d t4 =>
  cases t4 with
  | cons e t5 => simp [isFourDigits] at h
  | nil =>
    simp only [isFourDigits, Bool.and_eq_true] at h
    have hdata : ((⟨[a, b, c, d]⟩ : String) ++ "-01-01").data
        = [a, b, c, d, '-', '0', '1', '-', '0', '1'] := rfl
    refine ⟨?_, ?_, ?_, ?_⟩
    · show (⟨pyStrip ((⟨[a, b, c, d]⟩ : String) ++ "-01-01").data⟩ : String) = _
      rw [hdata]
      rw [pyStrip_eq_self _ ?_ ?_]
      · rfl
      · intro ch hch
        simp only [List.head?_cons, Option.mem_def, Option.some.injEq] at hch
        subst hch
        exact isSp_of_isDig a h.1.1.1
      · intro ch hch
        rw [show ([a, b, c, d, '-', '0', '1', '-', '0', '1'] : List Char).getLast?
            = some '1' from rfl] at hch
        simp only [Option.mem_def, Option.some.injEq] at hch
        subst hch
        decide
    · intro hc
      have := congrArg String.data hc
      rw [hdata] at this
      simp at this
    · intro hc
      have := congrArg String.data hc
      rw [hdata] at this
      simp at this
    · show isFourDigits ⟨[a, b, c, d, '-', '0', '1', '-', '0', '1']⟩ = false
      rfl

theorem posted_date_idem (pFmt pGen : String → Option String)
    (hg : ∀ s t, pGen s = some t → pGen t = some t ∧ pFmt t = none
      ∧ isFourDigits t = false ∧ strStrip t = t ∧ t ≠ "" ∧ t ≠ "__NA__")
    (hf : ∀ s t, pFmt s = some t → pGen t = some t ∧ pFmt t = none
      ∧ isFourDigits t = false ∧ strStrip t = t ∧ t ≠ "" ∧ t ≠ "__NA__")
    (hy : ∀ s, isFourDigits s = true →
      pFmt (s ++ "-01-01") = none ∧ pGen (s ++ "-01-01") = some (s ++ "-01-01"))
    (x : Option String) :
    normalize_posted_date pFmt pGen (some (normalize_posted_date pFmt pGen x))
      = normalize_posted_date pFmt pGen x := by
  have hNAcase : normalize_posted_date pFmt pGen (some "__NA__") = "__NA__" := by
    simp only [normalize_posted_date]
    rw [if_pos (Or.inr (by decide))]
  have stable : ∀ t : String, strStrip t = t → t ≠ "" → t ≠ "__NA__" →
      isFourDigits t = false → pFmt t = none → pGen t = some t →
      normalize_posted_date pFmt pGen (some t) = t := by
    intro t h1 h2 h3 h4 h5 h6
    simp only [normalize_posted_date]
    rw [h1]
    rw [if_neg (by rintro (hh | hh); exact h2 hh; exact h3 hh)]
    rw [h4]
    simp only [Bool.false_eq_true, if_false]
    rw [h5, h6]
  cases x with
  | none => exact hNAcase
  | some s0 =>
    by_cases hb : strStrip s0 = "" ∨ strStrip s0 = "__NA__"
    · rw [show normalize_posted_date pFmt pGen (some s0) = "__NA__" from by
        simp only [normalize_posted_date]; rw [if_pos hb]]
      exact hNAcase
    · by_cases h4 : isFourDigits (strStrip s0) = true
      · rw [show normalize_posted_date pFmt pGen (some s0) = strStrip s0 ++ "-01-01" from by
          simp only [normalize_posted_date]; rw [if_neg hb, h4]; simp]
        obtain ⟨hfa, hfb, hfc, hfd⟩ := fourDigits_facts _ h4
        obtain ⟨hya, hyb⟩ := hy _ h4
        exact stable _ hfa hfb hfc hfd hya hyb
      · have h4' : isFourDigits (strStrip s0) = false := by
          cases hh : isFourDigits (strStrip s0) with
          | true => exact absurd hh h4
          | false => rfl
        cases h5 : pFmt (strStrip s0) with
        | some d =>
          rw [show normalize_posted_date pFmt pGen (some s0) = d from by
            simp only [normalize_posted_date]
            rw [if_neg hb, h4']
            simp only [Bool.false_eq_true, if_false]
            rw [h5]]
          obtain ⟨ha, hb2, hc, hd2, he, hf2⟩ := hf _ d h5
          exact stable d hd2 he hf2 hc hb2 ha
        | none =>
          cases h6 : pGen (strStrip s0) with
          | some d =>
            rw [show normalize_posted_date pFmt pGen (some s0) = d from by
              simp only [normalize_posted_date]
              rw [if_neg hb, h4']
              simp only [Bool.false_eq_true, if_false]
              rw [h5, h6]]
            obtain ⟨ha, hb2, hc, hd2, he, hf2⟩ := hg _ d h6
            exact stable d hd2 he hf2 hc hb2 ha
          | none =>
            rw [show normalize_posted_date pFmt pGen (some s0) = "__NA__" from by
              simp only [normalize_posted_date]
              rw [if_neg hb, h4']
              simp only [Bool.false_eq_true, if_false]
              rw [h5, h6]]
            exact hNAcase

theorem splitBy_ne_nil (p : Char → Bool) (l : List Char) : splitBy p l ≠ [] := by
  cases l with
  | nil => simp [splitBy]
  | cons c rest =>
    simp only [splitBy]
    cases h : splitBy p rest with
    | nil => simp
    | cons t ts => by_cases hc : p c <;> simp [hc]

theorem splitBy_all_nonsep (p : Char → Bool) (w : List Char)
    (h : w.all (fun c => !p c) = true) : splitBy p w = [w] := by
  induction w with
  | nil => rfl
  | cons c rest ih =>
    simp only [List.all_cons, Bool.and_eq_true, Bool.not_eq_true'] at h
    simp only [splitBy]
    rw [ih h.2]
    simp [h.1]

theorem splitBy_append_sep (p : Char → Bool) (d : Char) (hd : p d = true) (w : List Char)
    (hw : w.all (fun c => !p c) = true) :
    ∀ l, splitBy p (w ++ d :: l) = w :: splitBy p l := by
  induction w with
  | nil =>
    intro l
    simp only [List.nil_append, splitBy]
    cases h : splitBy p l with
    | nil => exact absurd h (splitBy_ne_nil p l)
    | cons t ts => simp [hd]
  | cons c w' ih =>
    intro l
    simp only [List.all_cons, Bool.and_eq_true, Bool.not_eq_true'] at hw
    simp only [List.cons_append, splitBy]
    rw [show w'.append (d :: l) = w' ++ d :: l from rfl, ih hw.2 l]
    simp [hw.1]

theorem splitBy_join (p : Char → Bool) (d : Char) (hd : p d = true) (cs : List (List Char))
    (hcs : ∀ c ∈ cs, c ≠ [] ∧ c.all (fun ch => !p ch) = true) (hne : cs ≠ []) :
    splitBy p (joinSep [d] cs) = cs := by
  induction cs with
  | nil => exact absurd rfl hne
  | cons c cs' ih =>
    cases cs' with
    | nil =>
      simp only [joinSep]
      exact splitBy_all_nonsep p c (hcs c (by simp)).2
    | cons c2 cs'' =>
      have hj : joinSep [d] (c :: c2 :: cs'') = c ++ d :: joinSep [d] (c2 :: cs'') := by
        simp only [joinSep]
        simp
      rw [hj, splitBy_append_sep p d hd c (hcs c (by simp)).2]
      congr 1
      exact ih (fun cc hh => hcs cc (by simp [hh])) (by simp)

theorem skill_fold_resolved (aliasTbl strongTbl : List (String × String))
    (toks : List (List Char))
    (hres : ∀ tok ∈ toks, ¬((normalize_text_23 ⟨tok⟩).length ≤ 2)
      ∧ resolveSkillToken aliasTbl strongTbl (normalize_text_23 ⟨tok⟩) = some ⟨tok⟩) :
    ∀ acc : List String × SkillAudit,
      toks.foldl (skillTokenStep aliasTbl strongTbl) acc
        = (acc.1 ++ toks.map (fun t => (⟨t⟩ : String)), acc.2) := by
  induction toks with
  | nil => intro acc; simp
  | cons t ts ih =>
    intro acc
    have ht := hres t (by simp)
    simp only [List.foldl_cons, skillTokenStep, if_neg ht.1, ht.2]
    rw [ih (fun tok hh => hres tok (by simp [hh])) _]
    simp

theorem newKeys_idem {κ : Type} [DecidableEq κ] (l : List κ) :
    ∀ seen : List κ, newKeys seen (newKeys seen l) = newKeys seen l := by
  induction l with
  | nil => intro seen; rfl
  | cons k rest ih =>
    intro seen
    cases hm : memB k seen with
    | true =>
      simp only [newKeys, hm, if_true]
      exact ih seen
    | false =>
      simp only [newKeys, hm, Bool.false_eq_true, if_false]
      rw [ih (k :: seen)]

theorem mem_of_mem_newKeys {κ : Type} [DecidableEq κ] (k : κ) (l : List κ) :
    ∀ seen, k ∈ newKeys seen l → k ∈ l := by
  induction l with
  | nil => intro seen h; simp [newKeys] at h
  | cons a rest ih =>
    intro seen h
    cases hm : memB a seen with
    | true =>
      rw [newKeys, hm, if_pos rfl] at h
      exact List.mem_cons_of_mem _ (ih seen h)
    | false =>
      rw [newKeys, hm] at h
      simp only [Bool.false_eq_true, if_false] at h
      rcases List.mem_cons.mp h with rfl | h'
      · exact List.mem_cons_self _ _
      · exact List.mem_cons_of_mem _ (ih (a :: seen) h')

theorem strongScan_mem (tn : String) (tbl : List (String × String)) (c : String)
    (h : strongScan tn tbl = some c) : c ∈ tbl.map Prod.snd := by
  induction tbl with
  | nil => cases h
  | cons p rest ih =>
    rcases p with ⟨k, v⟩
    simp only [strongScan] at h
    by_cases hw : wordBoundaryMatch k.data tn.data = true
    · rw [if_pos hw] at h
      injection h with h'
      subst h'
      exact List.mem_cons_self _ _
    · rw [if_neg hw] at h
      exact List.mem_cons_of_mem _ (ih h)

theorem resolveSkillToken_mem (a s : List (String × String)) (tn c : String)
    (h : resolveSkillToken a s tn = some c) :
    c ∈ a.map Prod.snd ∨ c ∈ s.map Prod.snd := by
  unfold resolveSkillToken at h
  cases ha : alookup tn a with
  | some v =>
    rw [ha] at h
    injection h with h'
    subst h'
    exact Or.inl (List.mem_map.mpr ⟨(tn, v), alookup_mem _ _ _ ha, rfl⟩)
  | none =>
    rw [ha] at h
    exact Or.inr (strongScan_mem tn s c h)

theorem clean_shape_id (j : String) (hstrip : strStrip j = j) (hne : j ≠ "")
    (hbrace : ∀ ch, j.data.head? = some ch → ch ≠ '{' ∧ ch ≠ '[') :
    clean_skill_field_shape (some j) = j := by
  simp only [clean_skill_field_shape]
  rw [hstrip]
  by_cases hna : j = "__NA__"
  · rw [if_pos (Or.inr hna), hna]
  · rw [if_neg (by rintro (hh | hh); exact hne hh; exact hna hh)]
    rw [if_neg (by rintro ⟨hh1, _⟩; exact (hbrace _ hh1).1 rfl)]
    rw [if_neg (by rintro ⟨hh1, _⟩; exact (hbrace _ hh1).2 rfl)]

theorem glast_append {α : Type} (l1 l2 : List α) (h : l2 ≠ []) :
    (l1 ++ l2).getLast? = l2.getLast? := by
  induction l1 with
  | nil => rfl
  | cons a l1' ih =>
    have hm : l1' ++ l2 ≠ [] := by
      intro hc
      rcases List.append_eq_nil.mp hc with ⟨_, h2⟩
      exact h h2
    cases hm2 : l1' ++ l2 with
    | nil => exact absurd hm2 hm
    | cons b m' =>
      simp only [List.cons_append, hm2, List.getLast?_cons_cons]
      rw [← hm2, ih]

theorem head_append_left {α : Type} (l1 l2 : List α) (h : l1 ≠ []) :
    (l1 ++ l2).head? = l1.head? := by
  cases l1 with
  | nil => exact absurd rfl h
  | cons a t => rfl

theorem map_self {α : Type} (f : α → α) (l : List α) (h : ∀ a ∈ l, f a = a) :
    l.map f = l := by
  induction l with
  | nil => rfl
  | cons a rest ih =>
    simp only [List.map_cons]
    rw [h a (by simp), ih (fun b hb => h b (by simp [hb]))]

/-- Unpack `canonOk`. -/
theorem canonOk_props (aliasTbl : List (String × String)) (c : String)
    (h : canonOk aliasTbl c = true) :
    c.data ≠ []
    ∧ headNonSp c.data
    ∧ (∀ ch, c.data.head? = some ch → ch ≠ '{' ∧ ch ≠ '[')
    ∧ lastNonSp c.data
    ∧ c.data.all (fun ch => !skillSepC ch) = true
    ∧ ¬((normalize_text_23 c).length ≤ 2)
    ∧ alookup (normalize_text_23 c) aliasTbl = some c := by
  simp only [canonOk, Bool.and_eq_true, decide_eq_true_eq] at h
  obtain ⟨⟨⟨⟨⟨hne, hhead⟩, hlast⟩, hsep⟩, hlen⟩, halias⟩ := h
  refine ⟨?_, ?_, ?_, ?_, hsep, by omega, halias⟩
  · intro hc
    rw [hc] at hne
    simp at hne
  · intro ch hch
    rw [hch] at hhead
    simp only [Bool.and_eq_true, Bool.not_eq_true'] at hhead
    simpa using hhead.1.1
  · intro ch hch
    rw [hch] at hhead
    simp only [Bool.and_eq_true, Bool.not_eq_true'] at hhead
    constructor
    · intro hc; subst hc; simpa using hhead.1.2
    · intro hc; subst hc; simpa using hhead.2
  · intro ch hch
    cases hl : c.data.getLast? with
    | none => rw [hl] at hch; cases hch
    | some d =>
      rw [hl] at hch hlast
      simp only [Option.mem_def, Option.some.injEq] at hch
      subst hch
      simpa using hlast

theorem join_lastNonSp (aliasTbl : List (String × String)) :
    ∀ cs : List String, (∀ c ∈ cs, canonOk aliasTbl c = true) →
      lastNonSp (joinSep ['|'] (cs.map String.data)) := by
  intro cs
  induction cs with
  | nil => intro _ d hd; cases hd
  | cons c1 rest ih =>
    intro hok
    cases rest with
    | nil =>
      intro d hd
      simp only [List.map_cons, List.map_nil, joinSep] at hd
      exact (canonOk_props aliasTbl c1 (hok c1 (by simp))).2.2.2.1 d hd
    | cons c2 rest' =>
      intro d hd
      have hj : joinSep ['|'] ((c1 :: c2 :: rest').map String.data)
          = c1.data ++ '|' :: joinSep ['|'] ((c2 :: rest').map String.data) := by
        simp only [List.map_cons, joinSep]
        simp
      rw [hj, glast_append _ _ (by simp)] at hd
      have hrec := ih (fun cc hh => hok cc (List.mem_cons_of_mem _ hh))
      cases hj2 : joinSep ['|'] ((c2 :: rest').map String.data) with
      | nil =>
        rw [hj2] at hd
        have hdpipe : '|' = d := by simpa using hd
        rw [← hdpipe]
        decide
      | cons b m =>
        rw [hj2, List.getLast?_cons_cons] at hd
        exact hrec d (by rw [hj2]; exact hd)

/-- Joining well-formed canonicals gives a string that strips to itself,
is non-blank, starts with no wrapper character, and tokenizes back to the
canonicals. -/
theorem join_facts (aliasTbl : List (String × String)) (cs : List String)
    (hne : cs ≠ []) (hok : ∀ c ∈ cs, canonOk aliasTbl c = true) :
    strStrip ⟨joinSep ['|'] (cs.map String.data)⟩ = ⟨joinSep ['|'] (cs.map String.data)⟩
    ∧ (⟨joinSep ['|'] (cs.map String.data)⟩ : String) ≠ ""
    ∧ (∀ ch, (joinSep ['|'] (cs.map String.data)).head? = some ch → ch ≠ '{' ∧ ch ≠ '[')
    ∧ skillFieldTokens ⟨joinSep ['|'] (cs.map String.data)⟩ = cs.map String.data := by
  have hjoin_head : ∀ c1 rest, cs = c1 :: rest →
      (joinSep ['|'] (cs.map String.data)).head? = c1.data.head? := by
    intro c1 rest hcs
    subst hcs
    cases rest with
    | nil => rfl
    | cons c2 rest' =>
      have hj : joinSep ['|'] ((c1 :: c2 :: rest').map String.data)
          = c1.data ++ '|' :: joinSep ['|'] ((c2 :: rest').map String.data) := by
        simp only [List.map_cons, joinSep]
        simp
      rw [hj]
      exact head_append_left _ _ (canonOk_props aliasTbl c1 (hok c1 (by simp))).1
  obtain ⟨c1, rest, hcs⟩ : ∃ c1 rest, cs = c1 :: rest := by
    cases cs with
    | nil => exact absurd rfl hne
    | cons a t => exact ⟨a, t, rfl⟩
  have hp1 := canonOk_props aliasTbl c1 (by rw [hcs] at hok; exact hok c1 (by simp))
  have hheadSome : ∃ ch, c1.data.head? = some ch := by
    cases hh : c1.data with
    | nil => exact absurd hh hp1.1
    | cons a t => exact ⟨a, rfl⟩
  obtain ⟨ch1, hch1⟩ := hheadSome
  have hjh : (joinSep ['|'] (cs.map String.data)).head? = some ch1 := by
    rw [hjoin_head c1 rest hcs, hch1]
  have hlastJ : lastNonSp (joinSep ['|'] (cs.map String.data)) :=
    join_lastNonSp aliasTbl cs hok
  have hheadJ : headNonSp (joinSep ['|'] (cs.map String.data)) := by
    intro d hd
    rw [hjh] at hd
    simp only [Option.mem_def, Option.some.injEq] at hd
    subst hd
    exact hp1.2.1 ch1 hch1
  have hstrip : strStrip ⟨joinSep ['|'] (cs.map String.data)⟩
      = ⟨joinSep ['|'] (cs.map String.data)⟩ := by
    show (⟨pyStrip (joinSep ['|'] (cs.map String.data))⟩ : String) = _
    rw [pyStrip_eq_self _ hheadJ hlastJ]
  have hneJ : (⟨joinSep ['|'] (cs.map String.data)⟩ : String) ≠ "" := by
    intro hc
    have := congrArg String.data hc
    simp only at this
    rw [this] at hjh
    cases hjh
  have htoks : skillFieldTokens ⟨joinSep ['|'] (cs.map String.data)⟩ = cs.map String.data := by
    unfold skillFieldTokens
    rw [show (⟨joinSep ['|'] (cs.map String.data)⟩ : String).data
        = joinSep ['|'] (cs.map String.data) from rfl]
    rw [splitBy_join skillSepC '|' (by decide) (cs.map String.data) ?_ (by
      rw [hcs]; simp)]
    · rw [map_self _ _ ?_]
      · rw [List.filter_eq_self.mpr ?_]
        intro t ht
        rcases List.mem_map.mp ht with ⟨c, hcmem, rfl⟩
        have hp := canonOk_props aliasTbl c (hok c hcmem)
        simp only [Bool.not_eq_true']
        cases hdd : c.data with
        | nil => exact absurd hdd hp.1
        | cons a t2 => rfl
      · intro t ht
        rcases List.mem_map.mp ht with ⟨c, hcmem, rfl⟩
        have hp := canonOk_props aliasTbl c (hok c hcmem)
        exact pyStrip_eq_self _ hp.2.1 hp.2.2.2.1
    · intro t ht
      rcases List.mem_map.mp ht with ⟨c, hcmem, rfl⟩
      have hp := canonOk_props aliasTbl c (hok c hcmem)
      refine ⟨hp.1, ?_⟩
      exact hp.2.2.2.2.1
  refine ⟨hstrip, hneJ, ?_, htoks⟩
  intro ch hch
  rw [hjh] at hch
  injection hch with hch
  subst hch
  exact hp1.2.2.1 ch1 hch1

theorem canonSkill_NA (aliasTbl strongTbl : List (String × String)) (audit2 : SkillAudit) :
    (canonSkill aliasTbl strongTbl (some "__NA__") audit2).1 = "__NA__" := by
  show (normalize_skill_name_with_mapping aliasTbl strongTbl
    (some (clean_skill_field_shape (some "__NA__"))) audit2).1 = "__NA__"
  rw [show clean_skill_field_shape (some "__NA__") = "__NA__" from by decide]
  simp only [normalize_skill_name_with_mapping]
  rw [if_pos (Or.inr (by decide))]

/-- Feeding a join of well-formed canonicals back through shape cleaning and
reference normalization reproduces it unchanged. -/
theorem skill_reapply (aliasTbl strongTbl : List (String × String)) (cs : List String)
    (hne : cs ≠ []) (hfo : firstOccur cs = cs)
    (hok : ∀ c ∈ cs, canonOk aliasTbl c = true) (audit2 : SkillAudit) :
    (canonSkill aliasTbl strongTbl
      (some ⟨joinSep ['|'] (cs.map String.data)⟩) audit2).1
      = ⟨joinSep ['|'] (cs.map String.data)⟩ := by
  obtain ⟨hstrip, hneJ, hbrace, htoks⟩ := join_facts aliasTbl cs hne hok
  show (normalize_skill_name_with_mapping aliasTbl strongTbl
    (some (clean_skill_field_shape (some ⟨joinSep ['|'] (cs.map String.data)⟩))) audit2).1 = _
  rw [clean_shape_id _ hstrip hneJ hbrace]
  by_cases hna : (⟨joinSep ['|'] (cs.map String.data)⟩ : String) = "__NA__"
  · have hstep : (normalize_skill_name_with_mapping aliasTbl strongTbl
        (some (⟨joinSep ['|'] (cs.map String.data)⟩ : String)) audit2).1 = "__NA__" := by
      rw [hna]
      simp only [normalize_skill_name_with_mapping]
      rw [if_pos (Or.inr (by decide))]
    rw [hstep]
    exact hna.symm
  · simp only [normalize_skill_name_with_mapping]
    rw [hstrip]
    rw [if_neg (by rintro (hh | hh); exact hneJ hh; exact hna hh)]
    rw [htoks]
    have htne : (cs.map String.data).isEmpty = false := by
      cases cs with
      | nil => exact absurd rfl hne
      | cons a t => rfl
    rw [htne]
    simp only [Bool.false_eq_true, if_false]
    rw [skill_fold_resolved aliasTbl strongTbl (cs.map String.data) ?hres ([], audit2)]
    case hres =>
      intro tok htok
      rcases List.mem_map.mp htok with ⟨c, hcm, rfl⟩
      have hp := canonOk_props aliasTbl c (hok c hcm)
      refine ⟨hp.2.2.2.2.2.1, ?_⟩
      show resolveSkillToken aliasTbl strongTbl (normalize_text_23 c) = some c
      unfold resolveSkillToken
      rw [hp.2.2.2.2.2.2]
    simp only [List.nil_append]
    have hmapmap : (cs.map String.data).map (fun t => (⟨t⟩ : String)) = cs := by
      rw [List.map_map]
      exact map_self _ cs (fun a _ => rfl)
    rw [hmapmap]
    rw [show firstOccur cs = cs from hfo]
    have hce : cs.isEmpty = false := by
      cases cs with
      | nil => exact absurd rfl hne
      | cons a t => rfl
    rw [hce]
    simp only [Bool.false_eq_true, if_false]

/-- Every output of the skill normalizer is either the NA sentinel or a join
of distinct canonical values drawn from the registry. -/
theorem skill_out_form (aliasTbl strongTbl : List (String × String)) (x : String)
    (audit : SkillAudit) :
    (normalize_skill_name_with_mapping aliasTbl strongTbl (some x) audit).1 = "__NA__"
    ∨ ∃ cs : List String, cs ≠ [] ∧ firstOccur cs = cs
      ∧ (∀ c ∈ cs, c ∈ aliasTbl.map Prod.snd ∨ c ∈ strongTbl.map Prod.snd)
      ∧ (normalize_skill_name_with_mapping aliasTbl strongTbl (some x) audit).1
          = ⟨joinSep ['|'] (cs.map String.data)⟩ := by
  by_cases hb : strStrip x = "" ∨ strStrip x = "__NA__"
  · left
    simp only [normalize_skill_name_with_mapping]
    rw [if_pos hb]
  · by_cases ht : (skillFieldTokens (strStrip x)).isEmpty = true
    · left
      simp only [normalize_skill_name_with_mapping]
      rw [if_neg hb, if_pos ht]
    · by_cases ho : (firstOccur ((skillFieldTokens (strStrip x)).foldl
          (skillTokenStep aliasTbl strongTbl) ([], audit)).1).isEmpty = true
      · left
        simp only [normalize_skill_name_with_mapping]
        rw [if_neg hb, if_neg ht, if_pos ho]
      · right
        refine ⟨firstOccur ((skillFieldTokens (strStrip x)).foldl
            (skillTokenStep aliasTbl strongTbl) ([], audit)).1, ?_, newKeys_idem _ [], ?_, ?_⟩
        · intro hc
          rw [hc] at ho
          exact ho rfl
        · intro c hcm
          have hc1 : c ∈ ((skillFieldTokens (strStrip x)).foldl
              (skillTokenStep aliasTbl strongTbl) ([], audit)).1 :=
            mem_of_mem_newKeys c _ [] hcm
          rw [skill_fold_fst aliasTbl strongTbl _ ([], audit)] at hc1
          simp only [List.nil_append] at hc1
          rcases List.mem_filterMap.mp hc1 with ⟨tok, _, hres⟩
          by_cases hlen : (normalize_text_23 ⟨tok⟩).length ≤ 2
          · simp only [hlen] at hres
            simp at hres
          · simp only [hlen] at hres
            simp only [Bool.false_eq_true, if_false] at hres
            exact resolveSkillToken_mem _ _ _ _ hres
        · simp only [normalize_skill_name_with_mapping]
          rw [if_neg hb, if_neg ht, if_neg ho]

/-- Idempotence of the full skill-field canonicalization, given a registry
whose canonical values are well-formed. -/
theorem skill_canon_idem (aliasTbl strongTbl : List (String × String))
    (hok : skillTblOk aliasTbl strongTbl = true) (x : Option String)
    (audit audit2 : SkillAudit) :
    (canonSkill aliasTbl strongTbl
      (some ((canonSkill aliasTbl strongTbl x audit).1)) audit2).1
      = (canonSkill aliasTbl strongTbl x audit).1 := by
  rcases skill_out_form aliasTbl strongTbl (clean_skill_field_shape x) audit with
    hna | ⟨cs, hne, hfo, hmem, heq⟩
  · have h1 : (canonSkill aliasTbl strongTbl x audit).1 = "__NA__" := hna
    rw [h1]
    exact canonSkill_NA aliasTbl strongTbl audit2
  · have h1 : (canonSkill aliasTbl strongTbl x audit).1
        = ⟨joinSep ['|'] (cs.map String.data)⟩ := heq
    rw [h1]
    refine skill_reapply aliasTbl strongTbl cs hne hfo ?_ audit2
    intro c hcm
    apply List.all_eq_true.mp hok
    rcases hmem c hcm with h | h
    · exact List.mem_append.mpr (Or.inl h)
    · exact List.mem_append.mpr (Or.inr h)

/-- Claim C3, counterexample: remote_option canonicalization is not
idempotent.  The boolean "true" canonicalizes to "Remote", but a second pass
maps the canonical value "Remote" to the INVALID sentinel, because
`normalize_remote_option` accepts only numeric percentage and boolean
encodings and does not recognize its own outputs. -/
theorem c3_counterexample :
    normalize_remote_option (some "true") = "Remote"
    ∧ normalize_remote_option (some (normalize_remote_option (some "true"))) = "__INVALID__"
    ∧ normalize_remote_option (some (normalize_remote_option (some "true")))
        ≠ normalize_remote_option (some "true") :=
  ⟨by decide, by decide, by decide⟩

/-- Claim C3 (amended): canonicalization is idempotent for company_name and
required_exp_years unconditionally; for currency, employment_type, city and
skill_name whenever the reference tables resolve each of their canonical
outputs back to itself (`currencyTblOk`, `employmentTblOk`, `cityTblOk`,
`skillTblOk`); and for posted_date whenever the date parsers reparse their
own formatted output.  It is NOT idempotent for remote_option (see the
counterexample): a second pass maps Onsite/Hybrid/Remote to `__INVALID__`. -/
theorem c3_canonicalize_idem
    (curTbl empTbl cityAliasTbl cityNameTbl skillAliasTbl skillStrongTbl :
      List (String × String))
    (pFmt pGen : String → Option String)
    (hcur : currencyTblOk curTbl = true)
    (hemp : employmentTblOk empTbl = true)
    (hcity : cityTblOk cityAliasTbl cityNameTbl = true)
    (hskill : skillTblOk skillAliasTbl skillStrongTbl = true)
    (hg : ∀ s t, pGen s = some t → pGen t = some t ∧ pFmt t = none
      ∧ isFourDigits t = false ∧ strStrip t = t ∧ t ≠ "" ∧ t ≠ "__NA__")
    (hf : ∀ s t, pFmt s = some t → pGen t = some t ∧ pFmt t = none
      ∧ isFourDigits t = false ∧ strStrip t = t ∧ t ≠ "" ∧ t ≠ "__NA__")
    (hy : ∀ s, isFourDigits s = true →
      pFmt (s ++ "-01-01") = none ∧ pGen (s ++ "-01-01") = some (s ++ "-01-01")) :
    (∀ x, normalize_company_name (some (normalize_company_name x))
        = normalize_company_name x)
    ∧ (∀ x, normalize_exp_years (some (normalize_exp_years x)) = normalize_exp_years x)
    ∧ (∀ x, normalize_currency curTbl (normalize_currency curTbl x)
        = normalize_currency curTbl x)
    ∧ (∀ x, normalize_employment_type empTbl (some (normalize_employment_type empTbl x))
        = normalize_employment_type empTbl x)
    ∧ (∀ x, resolve_city cityAliasTbl cityNameTbl
          (some (resolve_city cityAliasTbl cityNameTbl x))
        = resolve_city cityAliasTbl cityNameTbl x)
    ∧ (∀ x, normalize_posted_date pFmt pGen (some (normalize_posted_date pFmt pGen x))
        = normalize_posted_date pFmt pGen x)
    ∧ (∀ x audit audit2, (canonSkill skillAliasTbl skillStrongTbl
          (some ((canonSkill skillAliasTbl skillStrongTbl x audit).1)) audit2).1
        = (canonSkill skillAliasTbl skillStrongTbl x audit).1) :=
  ⟨company_name_idem, exp_years_idem, currency_idem curTbl hcur,
   employment_idem empTbl hemp, city_idem _ _ hcity,
   posted_date_idem pFmt pGen hg hf hy,
   fun x audit audit2 => skill_canon_idem _ _ hskill x audit audit2⟩

/-- A date string stable under re-normalization (used to instantiate the
general-parser parameter in the witness). -/
def stableDateStr (s : String) : Bool :=
  decide (strStrip s = s) && !(decide (s = "")) && !(decide (s = "__NA__"))
  && !(isFourDigits s)

def pGen0 (s : String) : Option String := if stableDateStr s = true then some s else none

def pFmt0 (_ : String) : Option String := none

theorem pGen0_stable : ∀ s t, pGen0 s = some t → pGen0 t = some t ∧ pFmt0 t = none
    ∧ isFourDigits t = false ∧ strStrip t = t ∧ t ≠ "" ∧ t ≠ "__NA__" := by
  intro s t h
  unfold pGen0 at h
  by_cases hc : stableDateStr s = true
  · rw [if_pos hc] at h
    injection h with h'
    subst h'
    simp only [stableDateStr, Bool.and_eq_true, Bool.not_eq_true', decide_eq_true_eq,
      decide_eq_false_iff_not] at hc
    refine ⟨?_, rfl, hc.2, hc.1.1.1, hc.1.1.2, hc.1.2⟩
    unfold pGen0
    rw [if_pos (by
      simp only [stableDateStr, Bool.and_eq_true, Bool.not_eq_true', decide_eq_true_eq,
        decide_eq_false_iff_not]
      exact hc)]
  · rw [if_neg hc] at h
    cases h

theorem pFmt0_stable : ∀ s t, pFmt0 s = some t → pGen0 t = some t ∧ pFmt0 t = none
    ∧ isFourDigits t = false ∧ strStrip t = t ∧ t ≠ "" ∧ t ≠ "__NA__" := by
  intro s t h
  cases h

theorem pGen0_year : ∀ s, isFourDigits s = true →
    pFmt0 (s ++ "-01-01") = none ∧ pGen0 (s ++ "-01-01") = some (s ++ "-01-01") := by
  intro s h
  obtain ⟨h1, h2, h3, h4⟩ := fourDigits_facts s h
  refine ⟨rfl, ?_⟩
  unfold pGen0
  rw [if_pos (by
    simp only [stableDateStr, Bool.and_eq_true, Bool.not_eq_true', decide_eq_true_eq,
      decide_eq_false_iff_not]
    exact ⟨⟨⟨h1, h2⟩, h3⟩, h4⟩)]

/-- Claim C3, witness: the amended idempotence at concrete values and
concrete closed reference tables. -/
theorem c3_witness :
    normalize_company_name (some (normalize_company_name (some "  Acme   Corp ")))
      = normalize_company_name (some "  Acme   Corp ")
    ∧ normalize_exp_years (some (normalize_exp_years (some " se ")))
      = normalize_exp_years (some " se ")
    ∧ normalize_currency [("usd", "USD")]
        (normalize_currency [("usd", "USD")] (some " USD "))
      = normalize_currency [("usd", "USD")] (some " USD ")
    ∧ normalize_employment_type [("FULLTIME", "Full-time")]
        (some (normalize_employment_type [("FULLTIME", "Full-time")] (some "full-time")))
      = normalize_employment_type [("FULLTIME", "Full-time")] (some "full-time")
    ∧ resolve_city [("HANOI", "Hanoi")] [("HANOI", "Hanoi")]
        (some (resolve_city [("HANOI", "Hanoi")] [("HANOI", "Hanoi")] (some "hanoi")))
      = resolve_city [("HANOI", "Hanoi")] [("HANOI", "Hanoi")] (some "hanoi")
    ∧ normalize_posted_date pFmt0 pGen0
        (some (normalize_posted_date pFmt0 pGen0 (some "2021")))
      = normalize_posted_date pFmt0 pGen0 (some "2021")
    ∧ (canonSkill [("SQL", "SQL")] []
        (some ((canonSkill [("SQL", "SQL")] [] (some "sql|x") audit0).1)) audit0).1
      = (canonSkill [("SQL", "SQL")] [] (some "sql|x") audit0).1 := by
  have h := c3_canonicalize_idem [("usd", "USD")] [("FULLTIME", "Full-time")]
    [("HANOI", "Hanoi")] [("HANOI", "Hanoi")] [("SQL", "SQL")] [] pFmt0 pGen0
    (by decide) (by decide) (by decide) (by decide)
    pGen0_stable pFmt0_stable pGen0_year
  exact ⟨h.1 _, h.2.1 _, h.2.2.1 _, h.2.2.2.1 _, h.2.2.2.2.1 _,
    h.2.2.2.2.2.1 _, h.2.2.2.2.2.2 _ audit0 audit0⟩

/-- Claim C7, amended: skill canonicalization.  (1) The output field is
exactly the join of the resolved canonical skills (alias-exact first, then
strong-term word-boundary match), deduplicated with first-occurrence order
preserved; tokens that fail to resolve never reach the output.  (2) Every
token whose NORMALIZED FORM IS LONGER THAN TWO CHARACTERS and that fails to
resolve is recorded in the unmatched-skill audit: its counter strictly
increases and a raw example is retained.  Shorter tokens are skipped by the
trivial-noise cutoff before resolution or audit and vanish silently (see the
counterexample).  (3) In particular, for input "sql|fakeskillxyz" with a
registry resolving SQL to itself and not resolving FAKESKILLXYZ, the output
field is "SQL" and the audit holds count 1 and raw example "fakeskillxyz"
for FAKESKILLXYZ. -/
theorem c7_skill_canonicalization :
    (∀ (aliasTbl strongTbl : List (String × String)) (x : String) (audit : SkillAudit),
       strStrip x ≠ "" → strStrip x ≠ "__NA__" →
       (normalize_skill_name_with_mapping aliasTbl strongTbl (some x) audit).1
         = (if (firstOccur (resolvedSkills aliasTbl strongTbl (strStrip x))).isEmpty
            then "__NA__"
            else ⟨joinSep ['|']
              ((firstOccur (resolvedSkills aliasTbl strongTbl (strStrip x))).map String.data)⟩))
    ∧ (∀ (aliasTbl strongTbl : List (String × String)) (x : String) (audit : SkillAudit)
         (tok : List Char),
       strStrip x ≠ "" → strStrip x ≠ "__NA__" →
       tok ∈ skillFieldTokens (strStrip x) →
       2 < (normalize_text_23 ⟨tok⟩).length →
       resolveSkillToken aliasTbl strongTbl (normalize_text_23 ⟨tok⟩) = none →
       counterOf audit.counter (normalize_text_23 ⟨tok⟩) + 1
         ≤ counterOf ((normalize_skill_name_with_mapping aliasTbl strongTbl
             (some x) audit).2).counter (normalize_text_23 ⟨tok⟩)
       ∧ (alookup (normalize_text_23 ⟨tok⟩)
           ((normalize_skill_name_with_mapping aliasTbl strongTbl
             (some x) audit).2).source).isSome = true)
    ∧ (∀ aliasTbl strongTbl : List (String × String),
       alookup "SQL" aliasTbl = some "SQL" →
       resolveSkillToken aliasTbl strongTbl "FAKESKILLXYZ" = none →
       normalize_skill_name_with_mapping aliasTbl strongTbl (some "sql|fakeskillxyz") audit0
         = ("SQL", ⟨[("FAKESKILLXYZ", 1)], [("FAKESKILLXYZ", "fakeskillxyz")]⟩)) := by
  refine ⟨?_, ?_, ?_⟩
  · intro aliasTbl strongTbl x audit h1 h2
    simp only [normalize_skill_name_with_mapping]
    rw [if_neg (by simp [h1, h2])]
    by_cases ht : (skillFieldTokens (strStrip x)).isEmpty
    · have hnil : skillFieldTokens (strStrip x) = [] := by
        cases hh : skillFieldTokens (strStrip x) with
        | nil => rfl
        | cons a l => rw [hh] at ht; cases ht
      simp [ht, resolvedSkills, hnil, firstOccur, newKeys]
    · have hfold := skill_fold_fst aliasTbl strongTbl (skillFieldTokens (strStrip x)) ([], audit)
      simp only [Bool.not_eq_true] at ht
      simp only [ht, Bool.false_eq_true, if_false]
      rw [hfold]
      simp only [List.nil_append]
      rfl
  · intro aliasTbl strongTbl x audit tok h1 h2 hmem hlen hres
    simp only [normalize_skill_name_with_mapping]
    rw [if_neg (by simp [h1, h2])]
    have ht : (skillFieldTokens (strStrip x)).isEmpty = false := by
      cases hh : skillFieldTokens (strStrip x) with
      | nil => rw [hh] at hmem; cases hmem
      | cons a l => rfl
    simp only [ht, Bool.false_eq_true, if_false]
    exact skill_fold_unmatched aliasTbl strongTbl _ ([], audit) tok hmem hlen hres
  · intro aliasTbl strongTbl hA hB
    have e1 : resolveSkillToken aliasTbl strongTbl (normalize_text_23 ⟨"sql".data⟩)
        = some "SQL" := by
      rw [show normalize_text_23 ⟨"sql".data⟩ = "SQL" from by decide]
      simp only [resolveSkillToken, hA]
    have e2 : resolveSkillToken aliasTbl strongTbl (normalize_text_23 ⟨"fakeskillxyz".data⟩)
        = none := by
      rw [show normalize_text_23 ⟨"fakeskillxyz".data⟩ = "FAKESKILLXYZ" from by decide]
      exact hB
    have step1 : skillTokenStep aliasTbl strongTbl ([], audit0) "sql".data
        = (["SQL"], audit0) := by
      simp only [skillTokenStep]
      rw [if_neg (by decide)]
      rw [e1]
      simp
    have step2 : skillTokenStep aliasTbl strongTbl (["SQL"], audit0) "fakeskillxyz".data
        = (["SQL"], ⟨[("FAKESKILLXYZ", 1)], [("FAKESKILLXYZ", "fakeskillxyz")]⟩) := by
      simp only [skillTokenStep]
      rw [if_neg (by decide)]
      rw [e2]
      decide
    simp only [normalize_skill_name_with_mapping]
    rw [if_neg (by decide)]
    rw [show skillFieldTokens (strStrip "sql|fakeskillxyz")
        = ["sql".data, "fakeskillxyz".data] from by decide]
    rw [if_neg (by decide)]
    simp only [List.foldl_cons, List.foldl_nil]
    rw [step1, step2]
    decide

/-- Counterexample to claim C7 as stated: a token whose normalized form has
at most two characters is skipped by the `len(tn) <= 2` cutoff before
resolution or audit, so a non-resolving token can vanish from the output
without any audit record.  Here "xy" (normalized "XY") resolves to nothing
against the registry, yet the canonicalization drops it and returns the
audit state untouched - no counter bump, no raw example. -/
theorem c7_counterexample :
    (normalize_skill_name_with_mapping [("SQL", "SQL")] [] (some "xy|sql") audit0
      = ("SQL", audit0))
    ∧ resolveSkillToken [("SQL", "SQL")] [] (normalize_text_23 "xy") = none := by
  decide

/-- Claim C7, witness: concrete registry with SQL aliased to itself. -/
theorem c7_witness :
    normalize_skill_name_with_mapping [("SQL", "SQL")] [] (some "sql|fakeskillxyz") audit0
      = ("SQL", ⟨[("FAKESKILLXYZ", 1)], [("FAKESKILLXYZ", "fakeskillxyz")]⟩) :=
  c7_skill_canonicalization.2.2 [("SQL", "SQL")] [] (by decide) (by decide)

/-- Claim C4, witness: projecting the same company twice reuses id 1. -/
theorem c4_witness :
    alookup (some "Acme") (runProject cat0 [acmeRec, acmeRec]).company.tbl
      = some (1 + (firstOccur ((companyKeySeq [acmeRec, acmeRec]).takeWhile
          (fun a => a ≠ some "Acme"))).length)
    ∧ alookup (some "Acme") (runProject cat0 [acmeRec, acmeRec]).company.tbl = some 1 :=
  ⟨(c4_surrogate_keys cat0 [acmeRec, acmeRec]).2.1 (some "Acme") (by decide),
   by decide⟩

/-! ### Signal Extractor (STEP 2.2, `2.2_extracting_description_signals.py`)

The step loads each file and runs `df = df.fillna(NA_VALUE)` (line 563) before
the row loop, so every cell is a plain string and a blank cell cannot occur
(pandas reads an empty CSV cell as NaN, which the fillna turns into the
sentinel).  Records are therefore modelled with plain `String` fields.  The
reference mappings (countries, city aliases, skill / education / industry /
company size / employment / level tables) are CSV data, not code; they enter
as parameters in dict-iteration (insertion) order. -/

/-- Keyword list `REMOTE_KEYWORDS` (lines 56-62). -/
def REMOTE_KEYWORDS : List String :=
  ["remote", "work from home", "wfh", "fully remote", "hybrid"]

/-- Keyword list `SALARY_CONTEXT_KEYWORDS` (lines 65-71): currency symbols
then textual codes, in source order. -/
def SALARY_CONTEXT_KEYWORDS : List String :=
  ["$", "€", "£", "¥", "¢", "₹", "₽", "₩", "₪", "₱", "฿", "₦", "₴", "₺",
   "usd", "eur", "euro", "gbp", "pound", "aud", "cad", "jpy", "yen", "cny",
   "yuan", "inr", "rub", "krw", "chf", "sek", "nok", "dkk", "pln", "czk", "huf"]

/-- Keyword list `SALARY_INDICATORS` (lines 73-79). -/
def SALARY_INDICATORS : List String :=
  ["salary", "salaries", "pay", "compensation", "wage", "package",
   "remuneration", "brutto", "netto", "gehalt", "per month", "per year",
   "annually", "monthly", "€/month", "$/year"]

/-- Keyword list `NON_SALARY_CONTEXT` (lines 81-90). -/
def NON_SALARY_CONTEXT : List String :=
  ["arr", "revenue", "funding", "series", "valuation", "investor",
   "financing", "customers", "market", "growth", "raised", "million",
   "billion", "allowance", "packaging", "bonus", "incentive", "benefit", "p/a"]

/-- Helper `normalize_currency` of step 2.2 (lines 232-239): a small literal
dict, defaulting to `c.upper()` on a miss. -/
def normalize_currency_22 (c : String) : String :=
  match alookup c [("€", "EUR"), ("eur", "EUR"), ("euro", "EUR"),
                   ("$", "USD"), ("usd", "USD"),
                   ("£", "GBP"), ("gbp", "GBP"), ("pound", "GBP"),
                   ("¥", "JPY"), ("jpy", "JPY"), ("yen", "JPY")] with
  | some v => v
  | none => strUpper c

/-- Helper `extract_remote` (lines 241-242): any remote keyword occurs as a
substring of the (already lowercased) text. -/
def extract_remote (text : String) : Bool :=
  REMOTE_KEYWORDS.any (fun k => occursIn text.data k.data)

/-- Ordered containment scan shared by `extract_country` and `extract_city`:
the first table entry whose key is a substring of the text wins (Python dict
iteration order). -/
def scanContains : List (String × String) → List Char → Option String
  | [], _ => none
  | (k, v) :: rest, text =>
    if occursIn text k.data then some v else scanContains rest text

/-- Helper `extract_country` (lines 244-248) over the `COUNTRY_LOOKUP` table
(lowercased country name, original country name). -/
def extract_country (countryTbl : List (String × String)) (text : String) :
    Option String :=
  scanContains countryTbl text.data

/-- Helper `extract_city` (lines 250-254) over `CITY_ALIAS_LOOKUP`
(normalized alias, canonical city). -/
def extract_city (cityTbl : List (String × String)) (text : String) :
    Option String :=
  scanContains cityTbl text.data

/-- All occurrences of `pat` in `txt` from offset `start` as (start, end)
index pairs: the `while True: idx = text.find(k, start)` loop of lines
264-271.  Fuel is the text length plus one; every iteration advances the
offset by at least the (nonempty) pattern length. -/
def allHitsFrom (pat txt : List Char) : Nat → Nat → List (Nat × Nat)
  | 0, _ => []
  | fuel + 1, start =>
    match findIdx pat (txt.drop start) 0 with
    | none => []
    | some off =>
      (start + off, start + off + pat.length) ::
        allHitsFrom pat txt fuel (start + off + pat.length)

/-- The `currency_hits` list (lines 263-271): keyword-major, then
left-to-right within one keyword. -/
def currencyHits (text : List Char) : List (Nat × Nat × String) :=
  SALARY_CONTEXT_KEYWORDS.flatMap (fun k =>
    (allHitsFrom k.data text (text.length + 1) 0).map (fun p => (p.1, p.2, k)))

/-- Length consumed by the maximal repetition of `[.,]\d{3}` groups at the
head of the list. -/
def sepGroups : Nat → List Char → Nat
  | 0, _ => 0
  | fuel + 1, c :: d1 :: d2 :: d3 :: rest =>
    if (c = '.' ∨ c = ',') ∧ isDig d1 ∧ isDig d2 ∧ isDig d3 then
      4 + sepGroups fuel rest
    else 0
  | _ + 1, _ => 0

/-- One left-to-right scan of `re.findall` for the number pattern
`\d{1,3}(?:[.,]\d{3})+|\d+` (line 301).  At a digit run of length `run` the
first alternative succeeds exactly when `run ≤ 3` and at least one `[.,]\d{3}`
group follows the run: for a longer run the leading group would have to start
at a digit, so every backtracking choice of the `\d{1,3}` prefix fails.
Otherwise the second alternative consumes the whole run. -/
def pyFindNums : Nat → List Char → List (List Char)
  | 0, _ => []
  | _ + 1, [] => []
  | fuel + 1, c :: rest =>
    if isDig c then
      let l := c :: rest
      let run := (l.takeWhile isDig).length
      let g := sepGroups l.length (l.drop run)
      let ml := if run ≤ 3 ∧ 0 < g then run + g else run
      l.take ml :: pyFindNums fuel (l.drop ml)
    else pyFindNums fuel rest

/-- Numeric value of a matched number token:
`int(n.replace(".", "").replace(",", ""))` (line 303). -/
def numTokenVal (n : List Char) : Nat :=
  digitsToNat (n.filter (fun c => !(decide (c = '.' ∨ c = ','))))

/-- Window processing for one currency hit (lines 280-308), folded over the
accumulated `(extracted_values, detected_currency)` state. -/
def salaryHitStep (text : List Char) (acc : List Nat × String)
    (hit : Nat × Nat × String) : List Nat × String :=
  let start := hit.1
  let stop := hit.2.1
  let cur := hit.2.2
  let left0 := start - 20
  let right0 := min text.length (stop + 20)
  let left := left0 - ((text.take left0).reverse.takeWhile isDig).length
  let right := right0 + ((text.drop right0).takeWhile isDig).length
  let window := slice text left right
  let anchor := slice text (left - 30) right
  if !(SALARY_INDICATORS.any (fun k => occursIn anchor k.data)) then acc
  else if NON_SALARY_CONTEXT.any (fun k => occursIn window k.data) then acc
  else
    let nums := pyFindNums (window.length + 1) window
    (acc.1 ++ (nums.map numTokenVal).filter (fun v => 100 ≤ v),
     if nums ≠ [] ∧ acc.2 = "__NA__" then normalize_currency_22 cur else acc.2)

/-- Core of `extract_salary_from_text` (lines 256-316): the part computed
from the description alone - currency hits, per-hit window filtering, number
collection, `min`/`max`, and the 10,000,000 sanity bound.  `none` stands for
every early `return cur_min, cur_max, NA, False`; `some (lo, hi, currency)`
means the final fill decision (lines 318-321) is reached. -/
def salaryCore (desc : String) : Option (Nat × Nat × String) :=
  let text := lowerL desc.data
  let hits := currencyHits text
  if hits = [] then none
  else
    let res := hits.foldl (salaryHitStep text) ([], "__NA__")
    if res.1 = [] then none
    else
      let lo := listMin res.1
      let hi := listMax res.1
      if 10000000 < hi - lo then none
      else some (lo, hi, res.2)

/-- Python truthiness guard `has(val)` of lines 259-260: not the NA sentinel
and not blank (the `None` case cannot arise on post-fillna string cells). -/
def hasVal (v : String) : Bool :=
  if v = "__NA__" ∨ v = "" then false else true

/-- Function `extract_salary_from_text` (lines 256-321).  The numeric results
are rendered as decimal strings, as happens when the ints are written into
the string-typed DataFrame cells. -/
def extract_salary_from_text (desc cur_min cur_max : String) :
    String × String × String × Bool :=
  match salaryCore desc with
  | none => (cur_min, cur_max, "__NA__", false)
  | some (lo, hi, cur) =>
    if !hasVal cur_min && !hasVal cur_max then
      (toString lo, toString hi, cur, true)
    else (cur_min, cur_max, "__NA__", false)

/-- Counterexample to claim C5 as stated: for the spec example description
with both salary fields absent, the extractor does not produce
min_salary=80000 / max_salary=100000.  The "K" suffixes are not scaled (no
multiplier exists in `extract_salary_from_text`), `80` falls below the
`v >= 100` floor and is discarded, and both windows contribute the bare value
`100`. -/
theorem c5_counterexample :
    extract_salary_from_text "Salary: $80K-$100K per year" "__NA__" "__NA__"
      ≠ ("80000", "100000", "USD", true) := by decide

/-- Claim C5, amended: on the description `"Salary: $80K-$100K per year"`
with min_salary and max_salary both the NA sentinel, `extract_salary_from_text`
fills min_salary="100", max_salary="100" and currency="USD" (both `$` hits
pass the indicator/veto checks, the tokens `80` and `100` are parsed, `80` is
rejected by the `v >= 100` floor, and min = max = 100). -/
theorem c5_salary_example :
    extract_salary_from_text "Salary: $80K-$100K per year" "__NA__" "__NA__"
      = ("100", "100", "USD", true) := by decide

/-- Keyword list `EXP_CONTEXT_KEYWORDS` (lines 368-372). -/
def EXP_CONTEXT_KEYWORDS : List String :=
  ["experience", "exp", "year", "years", "yr", "yrs", "level", "seniority"]

/-- Gate of `extract_experience_years` (line 374): some experience-context
keyword occurs somewhere in the lowercased text. -/
def hasExpContext (text : List Char) : Bool :=
  EXP_CONTEXT_KEYWORDS.any (fun k => occursIn text k.data)

/-- Dict `LEVEL_YEAR_MAP` (lines 380-385), in insertion order. -/
def LEVEL_YEAR_MAP : List (String × Nat) :=
  [("en", 0), ("mi", 2), ("se", 5), ("ex", 8)]

/-- Keyword list `EXCLUDE_CONTEXT` (lines 387-395). -/
def EXCLUDE_CONTEXT : List String :=
  ["venture", "ecosystem", "company", "group", "lab", "studio",
   "english", "language", "software engineer", "engineer",
   "asia", "europe", "executive", "example"]

/-- Keyword list `COMPANY_CONTEXT` (lines 397-401). -/
def COMPANY_CONTEXT : List String :=
  ["company", "organisation", "organization", "we are", "we have",
   "our company", "our business", "founded", "since", "established",
   "leading", "provider", "retailer", "manufacturer", "employees",
   "stores", "countries", "customers", "group", "global", "europe",
   "worldwide"]

/-- Ascending start positions of the matches of `re.finditer(rf"\b{kw}\b",
text)`.  The keywords used consist of word characters, so the boundary
conditions make the matches standalone words; they are pairwise disjoint and
position order coincides with finditer order. -/
def wbOccurrences (kw text : List Char) : List Nat :=
  (List.range (text.length + 1)).filter (fun i =>
    matchAt kw (text.drop i)
    && (isWordOpt (if i = 0 then none else text.get? (i - 1)) != isWordOpt kw.head?)
    && (isWordOpt kw.getLast? != isWordOpt (text.get? (i + kw.length))))

/-- Inner loop of the level scan (lines 404-413): the first boundary
occurrence whose ±30 window avoids `EXCLUDE_CONTEXT` and mentions
experience / level / seniority returns the mapped years. -/
def levelHitLoop (text kw : List Char) (years : Nat) : List Nat → Option Nat
  | [] => none
  | i :: rest =>
    let window := slice text (i - 30) (min text.length (i + kw.length + 30))
    if EXCLUDE_CONTEXT.any (fun x => occursIn window x.data) then
      levelHitLoop text kw years rest
    else if ["experience", "level", "seniority"].any
        (fun c => occursIn window c.data) then
      some years
    else levelHitLoop text kw years rest

/-- Outer level scan over `LEVEL_YEAR_MAP` in dict order (line 403). -/
def firstLevelHit (text : List Char) : List (String × Nat) → Option Nat
  | [] => none
  | (kw, years) :: rest =>
    match levelHitLoop text kw.data years (wbOccurrences kw.data text) with
    | some y => some y
    | none => firstLevelHit text rest

/-- Literal-prefix regex piece: the remainder after `pat`, if `pat` is a
prefix of the input. -/
def matchLit (pat l : List Char) : Option (List Char) :=
  if matchAt pat l then some (l.drop pat.length) else none

/-- Greedy `\s*`. -/
def matchSpaces (l : List Char) : List Char := l.dropWhile isSp

/-- Greedy `(\d+)`: value of the digit run and the remainder. -/
def matchDigits1 (l : List Char) : Option (Nat × List Char) :=
  let run := l.takeWhile isDig
  if run = [] then none else some (digitsToNat run, l.drop run.length)

/-- Ordered alternation `(year|yr)`. -/
def matchYearUnit (l : List Char) : Option (List Char) :=
  match matchLit "year".data l with
  | some r => some r
  | none => matchLit "yr".data l

/-- Pattern `range`: `(\d+)\s*[-–]\s*(\d+)\s*(year|yr)` anchored at the
input head.  The digit / space / dash classes are disjoint, so the greedy
scan needs no backtracking; the years group is the first number. -/
def patRange (l : List Char) : Option (Nat × List Char) :=
  match matchDigits1 l with
  | none => none
  | some (n1, l1) =>
    match matchSpaces l1 with
    | [] => none
    | c :: l3 =>
      if c = '-' ∨ c = '–' then
        match matchDigits1 (matchSpaces l3) with
        | none => none
        | some (_, l5) => (matchYearUnit (matchSpaces l5)).map (fun r => (n1, r))
      else none

/-- Pattern `plus`: `(\d+)\s*\+\s*(year|yr)`. -/
def patPlus (l : List Char) : Option (Nat × List Char) :=
  match matchDigits1 l with
  | none => none
  | some (n1, l1) =>
    match matchSpaces l1 with
    | [] => none
    | c :: l3 =>
      if c = '+' then (matchYearUnit (matchSpaces l3)).map (fun r => (n1, r))
      else none

/-- Shared tail `\s*(\d+)\s*(year|yr)` of the `min` pattern; the years group
is the number here (group 2 of the pattern). -/
def minTail (l : List Char) : Option (Nat × List Char) :=
  match matchDigits1 (matchSpaces l) with
  | none => none
  | some (n, l3) => (matchYearUnit (matchSpaces l3)).map (fun r => (n, r))

/-- Pattern `min`: `(at least|minimum|min\.?)\s*(\d+)\s*(year|yr)`, with
regex backtracking over the ordered alternation and the optional dot. -/
def patMin (l : List Char) : Option (Nat × List Char) :=
  match (matchLit "at least".data l).bind minTail with
  | some r => some r
  | none =>
    match (matchLit "minimum".data l).bind minTail with
    | some r => some r
    | none =>
      match matchLit "min".data l with
      | none => none
      | some l1 =>
        match l1 with
        | '.' :: l2 =>
          match minTail l2 with
          | some r => some r
          | none => minTail l1
        | _ => minTail l1

/-- Ordered alternation `(experience|exp)`. -/
def matchExpWord (l : List Char) : Option (List Char) :=
  match matchLit "experience".data l with
  | some r => some r
  | none => matchLit "exp".data l

/-- Tail `\s*(of)?\s*(experience|exp)` with backtracking over `(of)?`
(spaces cannot be given back: the following pieces start with non-space
characters). -/
def ofExpTail (l : List Char) : Option (List Char) :=
  let l1 := matchSpaces l
  match (matchLit "of".data l1).bind (fun r => matchExpWord (matchSpaces r)) with
  | some r => some r
  | none => matchExpWord (matchSpaces l1)

/-- Tail `(year|yr)s?\s*(of)?\s*(experience|exp)` of the `simple` pattern,
with full backtracking over the alternation and the optional `s`. -/
def simpleTail (l : List Char) : Option (List Char) :=
  let afterUnit := fun (r : List Char) =>
    match r with
    | 's' :: r2 =>
      match ofExpTail r2 with
      | some res => some res
      | none => ofExpTail r
    | _ => ofExpTail r
  match (matchLit "year".data l).bind afterUnit with
  | some r => some r
  | none => (matchLit "yr".data l).bind afterUnit

/-- Pattern `simple`: `(\d+)\s*(year|yr)s?\s*(of)?\s*(experience|exp)`. -/
def patSimple (l : List Char) : Option (Nat × List Char) :=
  match matchDigits1 l with
  | none => none
  | some (n, l1) => (simpleTail (matchSpaces l1)).map (fun r => (n, r))

/-- Pattern `range_to`: `(\d+)\s*(to)\s*(\d+)\s*(year|years|yr|yrs)`.  The
final alternation is ordered and nothing follows it, so the first
prefix-matching unit wins ("year" before "years"). -/
def patRangeTo (l : List Char) : Option (Nat × List Char) :=
  match matchDigits1 l with
  | none => none
  | some (n1, l1) =>
    match matchLit "to".data (matchSpaces l1) with
    | none => none
    | some l2 =>
      match matchDigits1 (matchSpaces l2) with
      | none => none
      | some (_, l3) =>
        let l4 := matchSpaces l3
        match matchLit "year".data l4 with
        | some r => some (n1, r)
        | none =>
          match matchLit "years".data l4 with
          | some r => some (n1, r)
          | none =>
            match matchLit "yr".data l4 with
            | some r => some (n1, r)
            | none => (matchLit "yrs".data l4).map (fun r => (n1, r))

/-- `re.finditer` for an anchored matcher: scan left to right, skip one
character on failure, continue at the match end on success; records
`(start, end, years)`.  All five patterns begin with `\d+`, so a match
consumes at least one character. -/
def patScan (p : List Char → Option (Nat × List Char)) :
    Nat → List Char → Nat → List (Nat × Nat × Nat)
  | 0, _, _ => []
  | _ + 1, [], _ => []
  | fuel + 1, c :: rest, i =>
    match p (c :: rest) with
    | some (n, rem) =>
      let e := i + ((c :: rest).length - rem.length)
      (i, e, n) :: patScan p fuel rem e
    | none => patScan p fuel rest (i + 1)

/-- Numeric candidates (lines 418-449): for each pattern in order, each
match whose ±40 window avoids `COMPANY_CONTEXT` contributes its years
group. -/
def expCandidates (text : List Char) : List Nat :=
  [patRange, patPlus, patMin, patSimple, patRangeTo].flatMap (fun p =>
    ((patScan p (text.length + 1) text 0).filter (fun m =>
      let window := slice text (m.1 - 40) (min text.length (m.2.1 + 40))
      !(COMPANY_CONTEXT.any (fun c => occursIn window c.data)))).map
      (fun m => m.2.2))

/-- Function `extract_experience_years` (lines 362-464).  On naturals the
source's `years <= 0` branch returns "0", which coincides with `str(years)`
at zero, so a single `toString` covers lines 459-462. -/
def extract_experience_years (text0 : String) : String :=
  let text := lowerL text0.data
  if !(hasExpContext text) then "__NA__"
  else
    match firstLevelHit text LEVEL_YEAR_MAP with
    | some y => toString y
    | none =>
      let cands := expCandidates text
      if cands = [] then "__NA__"
      else
        let years := listMin cands
        if 20 < years then "__NA__"
        else toString years

/-- Claim C6: the experience extractor returns the NA sentinel unless an
experience-context keyword occurs somewhere in the lowercased text; when the
level-keyword scan fails and numeric candidates were accepted, the result is
the minimum of the candidates, except that a minimum above 20 is rejected to
NA; and on the spec example "Senior Data Engineer, minimum 6 years of
experience" it returns "6". -/
theorem c6_experience_extraction :
    (∀ t : String, hasExpContext (lowerL t.data) = false →
      extract_experience_years t = "__NA__")
    ∧ (∀ t : String, hasExpContext (lowerL t.data) = true →
        firstLevelHit (lowerL t.data) LEVEL_YEAR_MAP = none →
        expCandidates (lowerL t.data) ≠ [] →
        20 < listMin (expCandidates (lowerL t.data)) →
        extract_experience_years t = "__NA__")
    ∧ (∀ t : String, hasExpContext (lowerL t.data) = true →
        firstLevelHit (lowerL t.data) LEVEL_YEAR_MAP = none →
        expCandidates (lowerL t.data) ≠ [] →
        listMin (expCandidates (lowerL t.data)) ≤ 20 →
        extract_experience_years t
          = toString (listMin (expCandidates (lowerL t.data))))
    ∧ extract_experience_years "Senior Data Engineer, minimum 6 years of experience"
        = "6" := by
  refine ⟨?_, ?_, ?_, by decide⟩
  · intro t h
    simp [extract_experience_years, h]
  · intro t h1 h2 h3 h4
    simp [extract_experience_years, h1, h2, h3, h4]
  · intro t h1 h2 h3 h4
    simp [extract_experience_years, h1, h2, h3, Nat.not_lt.mpr h4]

/-- Concrete instantiation of the quantified conjuncts of
`c6_experience_extraction`: a text without experience context, a text whose
minimum candidate 25 exceeds the bound, and the spec example. -/
theorem c6_witness :
    extract_experience_years "We build rockets" = "__NA__"
    ∧ extract_experience_years "25 years of experience" = "__NA__"
    ∧ extract_experience_years "Senior Data Engineer, minimum 6 years of experience"
        = toString (listMin (expCandidates
            (lowerL "Senior Data Engineer, minimum 6 years of experience".data))) :=
  ⟨c6_experience_extraction.1 "We build rockets" (by decide),
   c6_experience_extraction.2.1 "25 years of experience" (by decide) (by decide)
     (by decide) (by decide),
   c6_experience_extraction.2.2.1
     "Senior Data Engineer, minimum 6 years of experience"
     (by decide) (by decide) (by decide) (by decide)⟩

/-- Shared keyword scan of the mapping-driven extractors
(`extract_education_level`, `extract_industry`, the fallback of
`extract_company_size`, `extract_employment_type`, `extract_job_level`):
first row with a keyword occurring as a substring wins; rows are dict /
list-append order. -/
def kwScan : List (String × List String) → List Char → String
  | [], _ => "__NA__"
  | (v, kws) :: rest, text =>
    if kws.any (fun k => occursIn text k.data) then v else kwScan rest text

/-- Function `extract_education_level` (lines 466-474) over `EDU_MAPPING`. -/
def extract_education_level (eduTbl : List (String × List String))
    (text0 : String) : String :=
  kwScan eduTbl (lowerL text0.data)

/-- Function `extract_industry` (lines 476-484) over `INDUSTRY_MAPPING`. -/
def extract_industry (industryTbl : List (String × List String))
    (text0 : String) : String :=
  kwScan industryTbl (lowerL text0.data)

/-- Function `extract_employment_type` (lines 526-534) over
`EMPLOYMENT_MAPPING`. -/
def extract_employment_type (empTbl : List (String × List String))
    (text0 : String) : String :=
  kwScan empTbl (lowerL text0.data)

/-- Function `extract_job_level` (lines 536-544) over `LEVEL_MAPPING`. -/
def extract_job_level (levelTbl : List (String × List String))
    (text0 : String) : String :=
  kwScan levelTbl (lowerL text0.data)

/-- Ordered alternation `(employees|people|staff)` of the headcount
patterns. -/
def matchSizeUnit (l : List Char) : Option (List Char) :=
  match matchLit "employees".data l with
  | some r => some r
  | none =>
    match matchLit "people".data l with
    | some r => some r
    | none => matchLit "staff".data l

/-- Headcount pattern `(\d+)\s*\+\s*(employees|people|staff)`, anchored;
returns the numeric groups of the match. -/
def sizePat1 (l : List Char) : Option (List Nat) :=
  match matchDigits1 l with
  | none => none
  | some (n, l1) =>
    match matchSpaces l1 with
    | '+' :: l2 => (matchSizeUnit (matchSpaces l2)).map (fun _ => [n])
    | _ => none

/-- Headcount pattern `over\s*(\d+)\s*(employees|people|staff)`. -/
def sizePat2 (l : List Char) : Option (List Nat) :=
  match matchLit "over".data l with
  | none => none
  | some l1 =>
    match matchDigits1 (matchSpaces l1) with
    | none => none
    | some (n, l2) => (matchSizeUnit (matchSpaces l2)).map (fun _ => [n])

/-- Headcount pattern `more than\s*(\d+)\s*(employees|people|staff)`. -/
def sizePat3 (l : List Char) : Option (List Nat) :=
  match matchLit "more than".data l with
  | none => none
  | some l1 =>
    match matchDigits1 (matchSpaces l1) with
    | none => none
    | some (n, l2) => (matchSizeUnit (matchSpaces l2)).map (fun _ => [n])

/-- Headcount pattern `(\d+)\s*-\s*(\d+)\s*(employees|people|staff)`. -/
def sizePat4 (l : List Char) : Option (List Nat) :=
  match matchDigits1 l with
  | none => none
  | some (n1, l1) =>
    match matchSpaces l1 with
    | '-' :: l2 =>
      match matchDigits1 (matchSpaces l2) with
      | none => none
      | some (n2, l3) => (matchSizeUnit (matchSpaces l3)).map (fun _ => [n1, n2])
    | _ => none

/-- Headcount pattern `team of\s*(\d+)`. -/
def sizePat5 (l : List Char) : Option (List Nat) :=
  match matchLit "team of".data l with
  | none => none
  | some l1 => (matchDigits1 (matchSpaces l1)).map (fun p => [p.1])

/-- Python `re.search` for an anchored matcher: the leftmost position where
the pattern matches. -/
def searchPat (p : List Char → Option (List Nat)) (text : List Char) :
    Option (List Nat) :=
  (List.range (text.length + 1)).findSome? (fun i => p (text.drop i))

/-- Function `extract_company_size` (lines 486-524): the five headcount
patterns in order (first pattern with a match anywhere wins), bucketing the
largest digit group; otherwise the keyword fallback.  Every pattern match
carries at least one digit group, so the source's `if not nums: continue`
guard is vacuous. -/
def extract_company_size (sizeTbl : List (String × List String))
    (text0 : String) : String :=
  let text := lowerL text0.data
  match [sizePat1, sizePat2, sizePat3, sizePat4, sizePat5].findSome?
      (fun p => searchPat p text) with
  | some nums =>
    let n := listMax nums
    if n < 10 then "Startup"
    else if n < 50 then "Small"
    else if n < 250 then "Medium"
    else if n < 1000 then "Large"
    else "Enterprise"
  | none => kwScan sizeTbl text

/-- One row of `SKILL_MAPPING` (lines 132-141): canonical skill, category,
and the lowercased alias / strong / exclude term lists. -/
structure SkillEntry where
  canonical : String
  category : String
  aliases : List String
  strong : List String
  exclude : List String

/-- Helper `match_r_skill` (lines 328-337): standalone uppercase `R` in the
role context, or an R-specific strong keyword in the lowercased body text. -/
def match_r_skill (text roleContext : List Char) : Bool :=
  !(wbOccurrences ['R'] roleContext).isEmpty
  || ["rstudio", "rlang", "r programming"].any (fun k => occursIn text k.data)

/-- Lexicographic order on code points, Python `<=` on strings. -/
def listLe : List Char → List Char → Bool
  | [], _ => true
  | _ :: _, [] => false
  | a :: ta, b :: tb =>
    if a.toNat < b.toNat then true
    else if b.toNat < a.toNat then false
    else listLe ta tb

/-- Insertion step of the sort below. -/
def insSorted (x : String) : List String → List String
  | [] => [x]
  | y :: rest => if listLe x.data y.data then x :: y :: rest else y :: insSorted x rest

/-- Python `sorted` on a list of strings (insertion sort; on the
duplicate-free lists it is applied to, the result is independent of the
input order, matching `sorted` of a set). -/
def sortStrs (l : List String) : List String := l.foldr insSorted []

/-- Function `extract_skills` (lines 323-360): gather the canonicals passing
the alias / strong / exclude rules into a set, then
`" | ".join(sorted(found))`.  The Python set becomes a first-occurrence
dedup before sorting. -/
def extract_skills (mapping : List SkillEntry) (text0 roleContext : String) :
    String :=
  let text := lowerL text0.data
  let found := mapping.foldl (fun acc s =>
    let hit :=
      if s.canonical = "R" then match_r_skill text roleContext.data
      else s.aliases.any (fun a => occursIn text a.data)
    if !hit then acc
    else if s.strong ≠ [] ∧ !(s.strong.any (fun k => occursIn text k.data)) then acc
    else if s.exclude ≠ [] ∧ s.exclude.any (fun k => occursIn text k.data) then acc
    else acc ++ [s.canonical]) []
  if found = [] then "__NA__"
  else ⟨joinSep " | ".data ((sortStrs (firstOccur found)).map String.data)⟩

/-- Python `skill_name.split(" | ")[0]` (line 671): the prefix before the
first occurrence of the three-character separator. -/
def firstSegment (sep l : List Char) : List Char :=
  match findIdx sep l 0 with
  | some i => l.take i
  | none => l

/-- One row of the DataFrame at step 2.2, after `fillna(NA_VALUE)`: the
description and the fourteen fill targets, all plain strings. -/
structure XRec where
  job_description : String
  city : String
  country : String
  remote_option : String
  min_salary : String
  max_salary : String
  currency : String
  required_exp_years : String
  education_level : String
  industry : String
  skill_name : String
  skill_category : String
  company_size : String
  employment_type : String
  level : String

/-- Guarded fill used by seven targets of the row loop: write the extracted
value only when the cell is the NA sentinel and the extraction succeeded
(`if df.at == NA: e = extract(...); if e != NA: df.at = e`). -/
def fillNA (e old : String) : String :=
  if old = "__NA__" then (if e ≠ "__NA__" then e else old) else old

/-- Guarded fill of the city / country targets (lines 586-598): the
extractor returns an optional string and any truthy (nonempty) result is
written over the NA sentinel. -/
def fillOpt (c : Option String) (old : String) : String :=
  if old = "__NA__" then
    match c with
    | some v => if v ≠ "" then v else old
    | none => old
  else old

/-- Guarded fill of remote_option (lines 601-604): the literal "true" is
written over the NA sentinel when a remote keyword was found. -/
def fillRemote (b : Bool) (old : String) : String :=
  if old = "__NA__" ∧ b then "true" else old

/-- Per-row body of `extract_from_description` (lines 579-705) for the
standard schema in which every target column is present.  `desc` and
`desc_lower` are read once before the fills; each extractor receives the
cased or lowercased text exactly as at its call site.  Skill-category reads
the possibly-just-updated skill_name cell, `SKILL_TO_CATEGORY` enters as the
association list `skillToCat`, and its `.get(first_skill, NA_VALUE)` default
is the `getD`. -/
def extractStep (countryTbl cityTbl : List (String × String))
    (mapping : List SkillEntry) (skillToCat : List (String × String))
    (eduTbl industryTbl sizeTbl empTbl levelTbl : List (String × List String))
    (r : XRec) : XRec :=
  if r.job_description = "__NA__" then r
  else
    let desc := r.job_description
    let descLower : String := ⟨lowerL desc.data⟩
    let sres := extract_salary_from_text desc r.min_salary r.max_salary
    let skill' := fillNA (extract_skills mapping desc ⟨descLower.data.take 300⟩)
      r.skill_name
    { r with
      city := fillOpt (extract_city cityTbl descLower) r.city,
      country := fillOpt (extract_country countryTbl descLower) r.country,
      remote_option := fillRemote (extract_remote descLower) r.remote_option,
      min_salary := if sres.2.2.2 then sres.1 else r.min_salary,
      max_salary := if sres.2.2.2 then sres.2.1 else r.max_salary,
      currency :=
        if sres.2.2.2 ∧ r.currency = "__NA__" then sres.2.2.1 else r.currency,
      required_exp_years := fillNA (extract_experience_years desc)
        r.required_exp_years,
      education_level := fillNA (extract_education_level eduTbl desc)
        r.education_level,
      industry := fillNA (extract_industry industryTbl descLower) r.industry,
      skill_name := skill',
      skill_category :=
        if r.skill_category = "__NA__" ∧ skill' ≠ "__NA__" then
          (alookup (⟨firstSegment " | ".data skill'.data⟩ : String)
            skillToCat).getD "__NA__"
        else r.skill_category,
      company_size := fillNA (extract_company_size sizeTbl descLower)
        r.company_size,
      employment_type := fillNA (extract_employment_type empTbl descLower)
        r.employment_type,
      level := fillNA (extract_job_level levelTbl descLower) r.level }

/-! ### No-override and idempotence facts for the row step -/

theorem fillNA_no_override (e old : String) (h : old ≠ "__NA__") :
    fillNA e old = old := by
  unfold fillNA
  rw [if_neg h]

theorem fillNA_idem (e old : String) :
    fillNA e (fillNA e old) = fillNA e old := by
  unfold fillNA
  by_cases h1 : old = "__NA__" <;> by_cases h2 : e = "__NA__" <;> simp [h1, h2]

theorem fillOpt_no_override (c : Option String) (old : String)
    (h : old ≠ "__NA__") : fillOpt c old = old := by
  unfold fillOpt
  rw [if_neg h]

theorem fillOpt_idem (c : Option String) (old : String) :
    fillOpt c (fillOpt c old) = fillOpt c old := by
  unfold fillOpt
  cases c with
  | none => by_cases h : old = "__NA__" <;> simp [h]
  | some v =>
    by_cases h : old = "__NA__"
    · by_cases hv : v = ""
      · simp [h, hv]
      · by_cases hvna : v = "__NA__" <;> simp [h, hv, hvna]
    · simp [h]

theorem fillRemote_no_override (b : Bool) (old : String) (h : old ≠ "__NA__") :
    fillRemote b old = old := by
  unfold fillRemote
  exact if_neg (fun hp => h hp.1)

theorem fillRemote_idem (b : Bool) (old : String) :
    fillRemote b (fillRemote b old) = fillRemote b old := by
  unfold fillRemote
  by_cases h1 : old = "__NA__" <;> by_cases h2 : b = true <;> simp [h1, h2]

/-- Second application of the guarded category fill computes the same value:
either the first pass left a non-NA category, or the recomputation repeats
the identical lookup. -/
theorem catFill_idem (cat : String → String) (sk sc : String) :
    (if (if sc = "__NA__" ∧ sk ≠ "__NA__" then cat sk else sc) = "__NA__" ∧ sk ≠ "__NA__"
     then cat sk
     else (if sc = "__NA__" ∧ sk ≠ "__NA__" then cat sk else sc))
    = (if sc = "__NA__" ∧ sk ≠ "__NA__" then cat sk else sc) := by
  by_cases h1 : sc = "__NA__" <;> by_cases h2 : sk = "__NA__" <;> simp [h1, h2]

theorem hasVal_of (m : String) (h1 : m ≠ "__NA__") (h2 : m ≠ "") :
    hasVal m = true := by
  unfold hasVal
  rw [if_neg (by rintro (h | h) <;> [exact h1 h; exact h2 h])]

/-- When either current salary cell is present (truthy), the fill flag is
false: the guard of line 318 fails and the source returns the untouched
values. -/
theorem salary_filled_false (desc m M : String)
    (h : hasVal m = true ∨ hasVal M = true) :
    (extract_salary_from_text desc m M).2.2.2 = false := by
  unfold extract_salary_from_text
  cases hcore : salaryCore desc with
  | none => rfl
  | some v =>
    obtain ⟨lo, hi, cur⟩ := v
    rcases h with h | h <;> simp [h]

/-- Applying the salary extraction to its own output changes nothing: the
core result depends only on the description, so the second pass either
rewrites the identical values or declines to fill. -/
theorem salary_restep (desc m M rc m1 M1 c1 : String)
    (hm : m1 = (if (extract_salary_from_text desc m M).2.2.2
                then (extract_salary_from_text desc m M).1 else m))
    (hM : M1 = (if (extract_salary_from_text desc m M).2.2.2
                then (extract_salary_from_text desc m M).2.1 else M))
    (hc : c1 = (if (extract_salary_from_text desc m M).2.2.2 ∧ rc = "__NA__"
                then (extract_salary_from_text desc m M).2.2.1 else rc)) :
    ((if (extract_salary_from_text desc m1 M1).2.2.2
      then (extract_salary_from_text desc m1 M1).1 else m1) = m1)
    ∧ ((if (extract_salary_from_text desc m1 M1).2.2.2
      then (extract_salary_from_text desc m1 M1).2.1 else M1) = M1)
    ∧ ((if (extract_salary_from_text desc m1 M1).2.2.2 ∧ c1 = "__NA__"
      then (extract_salary_from_text desc m1 M1).2.2.1 else c1) = c1) := by
  subst hm hM hc
  unfold extract_salary_from_text
  cases hcore : salaryCore desc with
  | none => simp
  | some v =>
    obtain ⟨lo, hi, cur⟩ := v
    by_cases h1 : (!hasVal m && !hasVal M) = true
    · by_cases h2 : (!hasVal (toString lo) && !hasVal (toString hi)) = true
      · by_cases h3 : rc = "__NA__" <;> simp [h1, h2, h3, ite_self]
      · simp [h1, h2]
    · simp [h1]

/-- Unfolding of the row step on an explicit record with a present
description. -/
theorem extractStep_mk (ct cy : List (String × String)) (mp : List SkillEntry)
    (sc : List (String × String))
    (ed indt sz em lv : List (String × List String))
    (jd city0 country0 remote0 mins maxs cur0 exp0 edu0 ind0 sk0 skc0 siz0 emp0 lvl0 : String)
    (hd : jd ≠ "__NA__") :
    extractStep ct cy mp sc ed indt sz em lv
      ⟨jd, city0, country0, remote0, mins, maxs, cur0, exp0, edu0, ind0, sk0,
       skc0, siz0, emp0, lvl0⟩
    = ⟨jd,
       fillOpt (extract_city cy ⟨lowerL jd.data⟩) city0,
       fillOpt (extract_country ct ⟨lowerL jd.data⟩) country0,
       fillRemote (extract_remote ⟨lowerL jd.data⟩) remote0,
       (if (extract_salary_from_text jd mins maxs).2.2.2
        then (extract_salary_from_text jd mins maxs).1 else mins),
       (if (extract_salary_from_text jd mins maxs).2.2.2
        then (extract_salary_from_text jd mins maxs).2.1 else maxs),
       (if (extract_salary_from_text jd mins maxs).2.2.2 ∧ cur0 = "__NA__"
        then (extract_salary_from_text jd mins maxs).2.2.1 else cur0),
       fillNA (extract_experience_years jd) exp0,
       fillNA (extract_education_level ed jd) edu0,
       fillNA (extract_industry indt ⟨lowerL jd.data⟩) ind0,
       fillNA (extract_skills mp jd ⟨(lowerL jd.data).take 300⟩) sk0,
       (if skc0 = "__NA__"
           ∧ fillNA (extract_skills mp jd ⟨(lowerL jd.data).take 300⟩) sk0 ≠ "__NA__"
        then (alookup (⟨firstSegment " | ".data
            (fillNA (extract_skills mp jd ⟨(lowerL jd.data).take 300⟩) sk0).data⟩ : String)
          sc).getD "__NA__"
        else skc0),
       fillNA (extract_company_size sz ⟨lowerL jd.data⟩) siz0,
       fillNA (extract_employment_type em ⟨lowerL jd.data⟩) emp0,
       fillNA (extract_job_level lv ⟨lowerL jd.data⟩) lvl0⟩ := by
  unfold extractStep
  rw [if_neg hd]

/-- Claim C1: the Signal Extractor never overrides present data - for each
of the fourteen target fields, a value differing from the NA sentinel is
unchanged by the row step - and the row step is idempotent.  For min_salary
and max_salary the field must also be non-blank: cells are strings produced
by `fillna`, and a blank cell cannot occur because pandas reads an empty CSV
cell as NaN, which the fillna replaces with the sentinel (the Python `has`
guard treats a blank like an absent value). -/
theorem c1_no_override (ct cy : List (String × String)) (mp : List SkillEntry)
    (sc : List (String × String))
    (ed indt sz em lv : List (String × List String)) (r : XRec) :
    ((r.city ≠ "__NA__" →
        (extractStep ct cy mp sc ed indt sz em lv r).city = r.city)
    ∧ (r.country ≠ "__NA__" →
        (extractStep ct cy mp sc ed indt sz em lv r).country = r.country)
    ∧ (r.remote_option ≠ "__NA__" →
        (extractStep ct cy mp sc ed indt sz em lv r).remote_option = r.remote_option)
    ∧ (r.min_salary ≠ "__NA__" → r.min_salary ≠ "" →
        (extractStep ct cy mp sc ed indt sz em lv r).min_salary = r.min_salary)
    ∧ (r.max_salary ≠ "__NA__" → r.max_salary ≠ "" →
        (extractStep ct cy mp sc ed indt sz em lv r).max_salary = r.max_salary)
    ∧ (r.currency ≠ "__NA__" →
        (extractStep ct cy mp sc ed indt sz em lv r).currency = r.currency)
    ∧ (r.required_exp_years ≠ "__NA__" →
        (extractStep ct cy mp sc ed indt sz em lv r).required_exp_years
          = r.required_exp_years)
    ∧ (r.education_level ≠ "__NA__" →
        (extractStep ct cy mp sc ed indt sz em lv r).education_level
          = r.education_level)
    ∧ (r.industry ≠ "__NA__" →
        (extractStep ct cy mp sc ed indt sz em lv r).industry = r.industry)
    ∧ (r.skill_name ≠ "__NA__" →
        (extractStep ct cy mp sc ed indt sz em lv r).skill_name = r.skill_name)
    ∧ (r.skill_category ≠ "__NA__" →
        (extractStep ct cy mp sc ed indt sz em lv r).skill_category
          = r.skill_category)
    ∧ (r.company_size ≠ "__NA__" →
        (extractStep ct cy mp sc ed indt sz em lv r).company_size
          = r.company_size)
    ∧ (r.employment_type ≠ "__NA__" →
        (extractStep ct cy mp sc ed indt sz em lv r).employment_type
          = r.employment_type)
    ∧ (r.level ≠ "__NA__" →
        (extractStep ct cy mp sc ed indt sz em lv r).level = r.level))
    ∧ extractStep ct cy mp sc ed indt sz em lv
        (extractStep ct cy mp sc ed indt sz em lv r)
      = extractStep ct cy mp sc ed indt sz em lv r := by
  obtain ⟨jd, f1, f2, f3, f4, f5, f6, f7, f8, f9, f10, f11, f12, f13, f14⟩ := r
  by_cases hd : jd = "__NA__"
  · have h0 : extractStep ct cy mp sc ed indt sz em lv
        ⟨jd, f1, f2, f3, f4, f5, f6, f7, f8, f9, f10, f11, f12, f13, f14⟩
        = ⟨jd, f1, f2, f3, f4, f5, f6, f7, f8, f9, f10, f11, f12, f13, f14⟩ := by
      unfold extractStep
      rw [if_pos hd]
    constructor
    · rw [h0]
      exact ⟨fun _ => rfl, fun _ => rfl, fun _ => rfl, fun _ _ => rfl,
        fun _ _ => rfl, fun _ => rfl, fun _ => rfl, fun _ => rfl, fun _ => rfl,
        fun _ => rfl, fun _ => rfl, fun _ => rfl, fun _ => rfl, fun _ => rfl⟩
    · simp only [h0]
  · have hmk := extractStep_mk ct cy mp sc ed indt sz em lv
      jd f1 f2 f3 f4 f5 f6 f7 f8 f9 f10 f11 f12 f13 f14 hd
    constructor
    · rw [hmk]
      refine ⟨fun h => fillOpt_no_override _ _ h,
        fun h => fillOpt_no_override _ _ h,
        fun h => fillRemote_no_override _ _ h,
        fun h1 h2 => ?_, fun h1 h2 => ?_,
        fun h => if_neg (fun hp => h hp.2),
        fun h => fillNA_no_override _ _ h,
        fun h => fillNA_no_override _ _ h,
        fun h => fillNA_no_override _ _ h,
        fun h => fillNA_no_override _ _ h,
        fun h => if_neg (fun hp => h hp.1),
        fun h => fillNA_no_override _ _ h,
        fun h => fillNA_no_override _ _ h,
        fun h => fillNA_no_override _ _ h⟩
      · have hf := salary_filled_false jd f4 f5 (Or.inl (hasVal_of f4 h1 h2))
        simp [hf]
      · have hf := salary_filled_false jd f4 f5 (Or.inr (hasVal_of f5 h1 h2))
        simp [hf]
    · rw [hmk]
      rw [extractStep_mk ct cy mp sc ed indt sz em lv
        jd _ _ _ _ _ _ _ _ _ _ _ _ _ _ hd]
      simp only [XRec.mk.injEq]
      refine ⟨trivial, fillOpt_idem _ _, fillOpt_idem _ _, fillRemote_idem _ _,
        (salary_restep jd f4 f5 f6 _ _ _ rfl rfl rfl).1,
        (salary_restep jd f4 f5 f6 _ _ _ rfl rfl rfl).2.1,
        (salary_restep jd f4 f5 f6 _ _ _ rfl rfl rfl).2.2,
        fillNA_idem _ _, fillNA_idem _ _, fillNA_idem _ _, fillNA_idem _ _,
        ?_, fillNA_idem _ _, fillNA_idem _ _, fillNA_idem _ _⟩
      rw [fillNA_idem]
      exact catFill_idem
        (fun s => (alookup (⟨firstSegment " | ".data s.data⟩ : String) sc).getD "__NA__")
        (fillNA (extract_skills mp jd ⟨(lowerL jd.data).take 300⟩) f10) f11

/-- A concrete fully-populated record for instantiating `c1_no_override`. -/
def c1rec : XRec :=
  ⟨"Data Engineer role in our office", "Hanoi", "Vietnam", "Onsite", "1000",
   "2000", "USD", "3", "Master", "Technology", "SQL", "Databases", "Small",
   "Full-time", "Senior"⟩

/-- Concrete instantiation of every hypothesis-bearing conjunct of
`c1_no_override` at empty reference tables and a fully-populated record,
plus its idempotence conjunct. -/
theorem c1_witness :
    (extractStep [] [] [] [] [] [] [] [] [] c1rec).city = c1rec.city
    ∧ (extractStep [] [] [] [] [] [] [] [] [] c1rec).country = c1rec.country
    ∧ (extractStep [] [] [] [] [] [] [] [] [] c1rec).remote_option
        = c1rec.remote_option
    ∧ (extractStep [] [] [] [] [] [] [] [] [] c1rec).min_salary
        = c1rec.min_salary
    ∧ (extractStep [] [] [] [] [] [] [] [] [] c1rec).max_salary
        = c1rec.max_salary
    ∧ (extractStep [] [] [] [] [] [] [] [] [] c1rec).currency = c1rec.currency
    ∧ (extractStep [] [] [] [] [] [] [] [] [] c1rec).required_exp_years
        = c1rec.required_exp_years
    ∧ (extractStep [] [] [] [] [] [] [] [] [] c1rec).education_level
        = c1rec.education_level
    ∧ (extractStep [] [] [] [] [] [] [] [] [] c1rec).industry = c1rec.industry
    ∧ (extractStep [] [] [] [] [] [] [] [] [] c1rec).skill_name
        = c1rec.skill_name
    ∧ (extractStep [] [] [] [] [] [] [] [] [] c1rec).skill_category
        = c1rec.skill_category
    ∧ (extractStep [] [] [] [] [] [] [] [] [] c1rec).company_size
        = c1rec.company_size
    ∧ (extractStep [] [] [] [] [] [] [] [] [] c1rec).employment_type
        = c1rec.employment_type
    ∧ (extractStep [] [] [] [] [] [] [] [] [] c1rec).level = c1rec.level
    ∧ extractStep [] [] [] [] [] [] [] [] []
        (extractStep [] [] [] [] [] [] [] [] [] c1rec)
      = extractStep [] [] [] [] [] [] [] [] [] c1rec :=
  ⟨(c1_no_override [] [] [] [] [] [] [] [] [] c1rec).1.1 (by decide),
   (c1_no_override [] [] [] [] [] [] [] [] [] c1rec).1.2.1 (by decide),
   (c1_no_override [] [] [] [] [] [] [] [] [] c1rec).1.2.2.1 (by decide),
   (c1_no_override [] [] [] [] [] [] [] [] [] c1rec).1.2.2.2.1 (by decide)
     (by decide),
   (c1_no_override [] [] [] [] [] [] [] [] [] c1rec).1.2.2.2.2.1 (by decide)
     (by decide),
   (c1_no_override [] [] [] [] [] [] [] [] [] c1rec).1.2.2.2.2.2.1 (by decide),
   (c1_no_override [] [] [] [] [] [] [] [] [] c1rec).1.2.2.2.2.2.2.1
     (by decide),
   (c1_no_override [] [] [] [] [] [] [] [] [] c1rec).1.2.2.2.2.2.2.2.1
     (by decide),
   (c1_no_override [] [] [] [] [] [] [] [] [] c1rec).1.2.2.2.2.2.2.2.2.1
     (by decide),
   (c1_no_override [] [] [] [] [] [] [] [] [] c1rec).1.2.2.2.2.2.2.2.2.2.1
     (by decide),
   (c1_no_override [] [] [] [] [] [] [] [] [] c1rec).1.2.2.2.2.2.2.2.2.2.2.1
     (by decide),
   (c1_no_override [] [] [] [] [] [] [] [] [] c1rec).1.2.2.2.2.2.2.2.2.2.2.2.1
     (by decide),
   (c1_no_override [] [] [] [] [] [] [] [] []
     c1rec).1.2.2.2.2.2.2.2.2.2.2.2.2.1 (by decide),
   (c1_no_override [] [] [] [] [] [] [] [] []
     c1rec).1.2.2.2.2.2.2.2.2.2.2.2.2.2 (by decide),
   (c1_no_override [] [] [] [] [] [] [] [] [] c1rec).2⟩

end Pipe
